import Mathlib

/-
Verification of the scoring/aggregation engine of maimai.py.

The Python sources are shallowly embedded: Python dicts become insertion-ordered
association lists, floats become exact integers (only their ordering and sums
are used), `None`-returning lookups become
`Option`, and exceptions become `Except`.  Definitions follow
`src/maimai_py/maimai.py`; the supporting modules `maimai_py/models.py` and
`maimai_py/enums.py` are not among the sources, so the handful of helpers taken
from them (`Score.compare`, `Song.get_levels`, the enum tables) are modelled from
the specification and marked as such in their doc comments.
-/

namespace MaimaiPy

/-! ### Enumerations

Modelled from the spec: `maimai_py/enums.py` is not among the sources.  The spec
describes `LevelIndex` (five difficulty slots with ReMASTER last), the clear-rate
tiers ordered "lower ordinal = stricter/better grade", the full-combo tiers with
AP stricter than FC, and the full-sync tiers with FSD among them. -/

inductive LevelIndex where
  | BASIC
  | ADVANCED
  | EXPERT
  | MASTER
  | ReMASTER
  deriving DecidableEq, Repr

/-- Chart type of a score (`score.type`); a song carries a `standard` and a `dx`
difficulty group. -/
inductive SongType where
  | standard
  | dx
  deriving DecidableEq, Repr

inductive RateType where
  | SSSP | SSS | SSP | SS | SP | S | AAA | AA | A | BBB | BB | B | C | D
  deriving DecidableEq, Repr

/-- Enum ordinal of a clear-rate tier (lower = better). -/
def RateType.value : RateType → Nat
  | .SSSP => 0 | .SSS => 1 | .SSP => 2 | .SS => 3 | .SP => 4 | .S => 5
  | .AAA => 6 | .AA => 7 | .A => 8 | .BBB => 9 | .BB => 10 | .B => 11
  | .C => 12 | .D => 13

inductive FCType where
  | APP | AP | FCP | FC
  deriving DecidableEq, Repr

def FCType.value : FCType → Nat
  | .APP => 0 | .AP => 1 | .FCP => 2 | .FC => 3

inductive FSType where
  | FSDP | FSD | FSP | FS
  deriving DecidableEq, Repr

def FSType.value : FSType → Nat
  | .FSDP => 0 | .FSD => 1 | .FSP => 2 | .FS => 3

/-! ### Python dict model

A Python `dict` is insertion ordered: assigning to an existing key updates the
value in place (keeping the key's position), assigning a fresh key appends, and
`.values()` iterates in key-insertion order. -/

abbrev PyDict (κ ν : Type) := List (κ × ν)

/-- Membership test (`k in d`). -/
def pyHasKey {κ ν : Type} [DecidableEq κ] (d : PyDict κ ν) (k : κ) : Bool :=
  d.any (fun p => decide (p.1 = k))

/-- `d.get(k)` / `d.get(k, None)`. -/
def pyGet? {κ ν : Type} [DecidableEq κ] (d : PyDict κ ν) (k : κ) : Option ν :=
  (d.find? (fun p => decide (p.1 = k))).map (fun p => p.2)

/-- `d.get(k, default)`. -/
def pyGetD {κ ν : Type} [DecidableEq κ] (d : PyDict κ ν) (k : κ) (default : ν) : ν :=
  (pyGet? d k).getD default

/-- `d[k] = v`: update in place when the key exists, append otherwise. -/
def pyUpdate {κ ν : Type} [DecidableEq κ] (d : PyDict κ ν) (k : κ) (v : ν) : PyDict κ ν :=
  if pyHasKey d k then d.map (fun p => if p.1 = k then (k, v) else p) else d ++ [(k, v)]

/-- `d.values()` as a list. -/
def pyValues {κ ν : Type} (d : PyDict κ ν) : List ν :=
  d.map (fun p => p.2)

/-- `d.keys()` as a list. -/
def pyKeys {κ ν : Type} (d : PyDict κ ν) : List κ :=
  d.map (fun p => p.1)

/-! ### Data model (`maimai_py/models.py`, modelled from the spec) -/

/-- Modelled from the spec: a Score identifies `(song id, chart type, level index)`
plus achievement percentage, dx rating, raw dx score, clear-rate tier, and the
optional full-combo / full-sync tiers.  The two float fields (`achievements`,
`dx_rating`) are embedded as exact integers: the engine only compares and sums
them, and any fixed decimal scaling preserves both operations. -/
structure Score where
  id : Int
  type : SongType
  level_index : LevelIndex
  achievements : Int
  dx_score : Int
  dx_rating : Int
  rate : RateType
  fc : Option FCType
  fs : Option FSType
  deriving DecidableEq, Repr

/-- Modelled from the spec: a per-level difficulty record carrying at least a
version ordinal; `level_index` identifies the slot within the chart. -/
structure SongDifficulty where
  level_index : LevelIndex
  version : Nat
  deriving DecidableEq, Repr

structure SongDifficulties where
  standard : List SongDifficulty
  dx : List SongDifficulty
  deriving DecidableEq, Repr

/-- Modelled from the spec: Song with identifier, metadata, release version
ordinal, mutable alias set (populated post-construction), and the two difficulty
groups. -/
structure Song where
  id : Int
  title : String
  artist : String
  genre : String
  bpm : Int
  version : Nat
  aliases : Option (List String)
  difficulties : SongDifficulties
  deriving DecidableEq, Repr

/-- Modelled from the spec: maps one canonical song id to its alternative title
strings. -/
structure SongAlias where
  song_id : Int
  aliases : List String
  deriving DecidableEq, Repr

/-- Modelled from the spec: PlateObject is (song reference, mutable list of level
indices, list of matching scores). -/
structure PlateObject where
  song : Song
  levels : List LevelIndex
  score : List Score
  deriving DecidableEq, Repr

/-! ### The score total order and `Score.compare` -/

/-- Strict "better than" order on scores: lexicographic on
`(dx_rating, dx_score, achievements)` — `rankLt a b` means `b` ranks strictly
above `a`.  This is Python's tuple comparison used throughout the engine. -/
def rankLt (a b : Score) : Prop :=
  a.dx_rating < b.dx_rating ∨
    (a.dx_rating = b.dx_rating ∧
      (a.dx_score < b.dx_score ∨ (a.dx_score = b.dx_score ∧ a.achievements < b.achievements)))

instance rankLt.instDecidable (a b : Score) : Decidable (rankLt a b) := by
  unfold rankLt
  exact inferInstance

/-- `rankLe a b`: `b` ranks at least as high as `a` (strictly above, or equal on
the whole comparison key). -/
def rankLe (a b : Score) : Prop :=
  rankLt a b ∨
    (a.dx_rating = b.dx_rating ∧ a.dx_score = b.dx_score ∧ a.achievements = b.achievements)

instance rankLe.instDecidable (a b : Score) : Decidable (rankLe a b) := by
  unfold rankLe
  exact inferInstance

/-- Modelled from the spec: `Score.compare` lives in `maimai_py/models.py`, which
is not among the sources.  Spec §3: comparison is "by (dx_rating, dx_score,
achievement) descending", the highest wins, and ties keep the first encountered —
call sites pass the previously stored score as `other`, so on a tie `other` is
returned.  `compare` with `None` returns `self`. -/
def Score.compare (self : Score) (other : Option Score) : Score :=
  match other with
  | none => self
  | some o => if rankLt o self then self else o


/-! ### MaimaiSongs (the song catalog) -/

structure MaimaiSongs where
  song_id_dict : PyDict Int Song
  alias_entry_dict : PyDict String Int
  deriving Repr

/-- One iteration of `{song.id: song for song in songs}`. -/
def songDictStep (d : PyDict Int Song) (song : Song) : PyDict Int Song :=
  pyUpdate d song.id song

/-- The `target_song.aliases = alias.aliases` in-place mutation of the alias
loop of `MaimaiSongs.__init__`: when `self._song_id_dict.get(alias.song_id)`
finds the target song, its `aliases` field is rewritten; otherwise nothing
happens.  (The parameter is named `al` because `alias` is a Lean keyword.) -/
def aliasApply (sd : PyDict Int Song) (al : SongAlias) : PyDict Int Song :=
  match pyGet? sd al.song_id with
  | some target_song => pyUpdate sd al.song_id { target_song with aliases := some al.aliases }
  | none => sd

/-- One iteration of the alias loop: rewrite the target song's `aliases` field
when the target exists, then register every alias string under the record's
song id — the inner `for` loop is outside the `if`, so registration happens
even when the target is absent. -/
def aliasStep (st : PyDict Int Song × PyDict String Int) (al : SongAlias) :
    PyDict Int Song × PyDict String Int :=
  (aliasApply st.1 al, al.aliases.foldl (fun ad entry => pyUpdate ad entry al.song_id) st.2)

/-- `MaimaiSongs.__init__`: builds the id-to-song dict from the song list, then
walks the alias records.  (The Python signature admits `aliases = None`, which
would raise a `TypeError` at the `for` loop; the embedding takes the list case.) -/
def mkMaimaiSongs (songs : List Song) (aliases : List SongAlias) : MaimaiSongs :=
  let st := aliases.foldl aliasStep (songs.foldl songDictStep [], [])
  ⟨st.1, st.2⟩

/-- `MaimaiSongs.songs` property: all songs as a list (dict value order). -/
def MaimaiSongs.songsList (self : MaimaiSongs) : List Song :=
  pyValues self.song_id_dict

/-- `MaimaiSongs.by_id`: `self._song_id_dict.get(id, None)`. -/
def MaimaiSongs.by_id (self : MaimaiSongs) (id : Int) : Option Song :=
  pyGet? self.song_id_dict id

/-- `MaimaiSongs.by_alias`: `song_id = self._alias_entry_dict.get(alias, 0);
return self.by_id(song_id)`.  (Parameter renamed `al`: `alias` is a Lean keyword.) -/
def MaimaiSongs.by_alias (self : MaimaiSongs) (al : String) : Option Song :=
  self.by_id (pyGetD self.alias_entry_dict al 0)


/-! ### Score deduplication (`MaimaiScores._get_distinct_scores`) -/

/-- The dedup dict key `f"{score.id} {score.type} {score.level_index}"`: the
f-string is injective in the triple (each rendered component is space-free), so
the triple itself serves as the key. -/
def scoreKeyOf (s : Score) : Int × SongType × LevelIndex :=
  (s.id, s.type, s.level_index)

/-- One iteration of the dedup loop:
`scores_unique[score_key] = score.compare(scores_unique.get(score_key, None))`. -/
def dedupStep (d : PyDict (Int × SongType × LevelIndex) Score) (score : Score) :
    PyDict (Int × SongType × LevelIndex) Score :=
  pyUpdate d (scoreKeyOf score) (score.compare (pyGet? d (scoreKeyOf score)))

/-- `MaimaiScores._get_distinct_scores`. -/
def getDistinctScores (scores : List Score) : List Score :=
  pyValues (scores.foldl dedupStep [])

/-- Invariant of the dedup dict after processing a prefix of the score list:
every entry is keyed by its own score's key, keys are distinct, every processed
key is present, every stored score was processed, and every stored score
dominates all processed scores with its key. -/
def DedupInv (processed : List Score)
    (d : PyDict (Int × SongType × LevelIndex) Score) : Prop :=
  (∀ p ∈ d, scoreKeyOf p.2 = p.1) ∧
    (pyKeys d).Nodup ∧
    (∀ s ∈ processed, pyHasKey d (scoreKeyOf s) = true) ∧
    (∀ p ∈ d, p.2 ∈ processed) ∧
    (∀ p ∈ d, ∀ s ∈ processed, scoreKeyOf s = p.1 → rankLe s p.2)

/-! ### Version tables (`maimai_py/enums.py`, modelled from the spec) -/

/-- Modelled from the spec: `enums.plate_to_version` (in `maimai_py/enums.py`,
not among the sources) maps each recognized version token to its catalog version
ordinal; "初" and "真" are present, pre-dx-era tokens map below 20000 and dx-era
tokens at or above it, and the era tokens "霸"/"舞" are not keys of the table
(the spec derives their ordinal sets instead of looking them up).  The concrete
ordinals are representative. -/
def plate_to_version : PyDict String Nat :=
  [("初", 10000), ("真", 11000), ("超", 12000), ("檄", 13000), ("橙", 14000),
   ("晓", 15000), ("桃", 16000), ("樱", 17000), ("紫", 18000), ("白", 19000),
   ("熊", 20000), ("华", 20500), ("星", 22500), ("祭", 23000)]

/-- Modelled from the spec: `enums.current_version`, the current game version
ordinal (a dx-era ordinal). -/
def current_version : Nat := 23000

/-- Modelled from the spec: `enums.plate_aliases`, the fixed alias table applied
to the version token and the goal-kind token before resolution.  Entries are
representative variant spellings of recognized tokens. -/
def plate_aliases : PyDict String String :=
  [("極", "极"), ("覇", "霸")]

/-! ### MaimaiScores -/

/-- Python runtime errors surfaced by the embedded code paths. -/
inductive PyErr where
  | typeErr
  | unboundLocalErr
  | invalidPlateErr
  | attributeErr
  deriving DecidableEq, Repr

instance exceptDecidableEq {ε α : Type} [DecidableEq ε] [DecidableEq α] :
    DecidableEq (Except ε α) := fun a b =>
  match a, b with
  | Except.error e, Except.error f =>
      if h : e = f then isTrue (by rw [h]) else isFalse (fun hc => h (Except.error.inj hc))
  | Except.error _, Except.ok _ => isFalse (fun hc => Except.noConfusion hc)
  | Except.ok _, Except.error _ => isFalse (fun hc => Except.noConfusion hc)
  | Except.ok x, Except.ok y =>
      if h : x = y then isTrue (by rw [h]) else isFalse (fun hc => h (Except.ok.inj hc))

structure ScoresState where
  scores : List Score
  scores_b35 : List Score
  scores_b15 : List Score
  rating : Int
  rating_b35 : Int
  rating_b15 : Int
  deriving DecidableEq, Repr

/-- Python truthiness of an optional list (`None` and `[]` are falsy). -/
def truthyList {α : Type} [DecidableEq α] (o : Option (List α)) : Bool :=
  match o with
  | none => false
  | some l => decide (l ≠ [])

/-- `self.scores = all or b35 + b15`: `all` when truthy, otherwise `b35 + b15`,
which raises `TypeError` when either operand is `None`. -/
def scoresOrSum (b35 b15 all : Option (List Score)) : Except PyErr (List Score) :=
  if truthyList all then Except.ok (all.getD [])
  else
    match b35, b15 with
    | some l35, some l15 => Except.ok (l35 ++ l15)
    | _, _ => Except.error PyErr.typeErr

/-- The partition loop of `MaimaiScores.__init__`: a distinct score goes to the
new pool (first component) when its song's release version is at or above
`current_version` and to the old pool (second component) when below; a score
whose id is not in the catalog is silently skipped by the
`if song := songs.by_id(score.id)` walrus guard. -/
def partitionStep (songs : MaimaiSongs) (pools : List Score × List Score)
    (score : Score) : List Score × List Score :=
  match songs.by_id score.id with
  | some song =>
      if current_version ≤ song.version then (pools.1 ++ [score], pools.2)
      else (pools.1, pools.2 ++ [score])
  | none => pools

def partitionByVersion (songs : MaimaiSongs) (distinct : List Score) :
    List Score × List Score :=
  distinct.foldl (partitionStep songs) ([], [])

/-- `MaimaiScores.__init__`.  When b35/b15 must be derived from the full score
list, the source evaluates `(scores_old.sort(key=...))[:35]`; `list.sort`
returns `None`, so the subscript raises `TypeError` before any field is
assigned — the embedding reaches that point (after the dedup and the partition)
and fails with `typeErr`. -/
def maimaiScoresInit (b35 b15 all : Option (List Score)) (songs : MaimaiSongs) :
    Except PyErr ScoresState := do
  let scores ← scoresOrSum b35 b15 all
  if (!truthyList b35 || !truthyList b15) && truthyList all then
    let distinct := getDistinctScores (all.getD [])
    let _pools := partitionByVersion songs distinct
    Except.error PyErr.typeErr
  else
    match b35, b15 with
    | some l35, some l15 =>
        let rating_b35 := (l35.map Score.dx_rating).sum
        let rating_b15 := (l15.map Score.dx_rating).sum
        Except.ok
          { scores := scores, scores_b35 := l35, scores_b15 := l15,
            rating := rating_b35 + rating_b15,
            rating_b35 := rating_b35, rating_b15 := rating_b15 }
    | _, _ => Except.error PyErr.typeErr

/-! ### MaimaiPlates -/

/-- The three successive `if` statements of `MaimaiPlates.__init__` that resolve
the version token.  They are independent `if`s (not an `elif` chain): a later
one that fires overwrites the assignment of an earlier one, and when none fires
the local `versions` stays unassigned (`none`).  The third test is Python
truthiness of `plate_to_version.get(version_str)` (present and nonzero). -/
def resolvedVersions (version_str : String) : Option (List Nat) :=
  let v1 : Option (List Nat) :=
    if version_str = "真" then
      some [pyGetD plate_to_version "初" 0, pyGetD plate_to_version "真" 0]
    else none
  let v2 : Option (List Nat) :=
    if version_str = "霸" ∨ version_str = "舞" then
      some ((pyValues plate_to_version).filter (fun ver => decide (ver < 20000)))
    else v1
  match pyGet? plate_to_version version_str with
  | some ver => if ver ≠ 0 then some [ver] else v2
  | none => v2

/-- The recognized goal kinds, in the order of the source's membership test. -/
def plateKinds : List String := ["将", "者", "极", "舞舞", "神"]

/-- Instance attributes of a constructed `MaimaiPlates` (its `songs` lives in
the shared class-level list, threaded separately). -/
structure PlateInstance where
  scores : List Score
  version : String
  kind : String
  deriving DecidableEq, Repr

/-- The era-membership test `any(chart_version % ver <= 100 for ver in versions)`
(Python `%`; every resolved ordinal is nonzero in the table, so no
`ZeroDivisionError` arises). -/
def eraMatch (chartVersion : Nat) (versions : List Nat) : Bool :=
  versions.any (fun ver => decide (chartVersion % ver ≤ 100))

/-- One `if song.difficulties.X != []: if any(...): scores_unique[...] = ...`
block of the plate score loop, for one chart group. -/
def chartStageDedup (versions : List Nat) (score : Score) (charts : List SongDifficulty)
    (d : PyDict (Int × SongType × LevelIndex) Score) :
    PyDict (Int × SongType × LevelIndex) Score :=
  match charts with
  | [] => d
  | c :: _ => if eraMatch c.version versions then dedupStep d score else d

/-- One iteration of the plate score loop: look the song up (an absent id makes
`song.difficulties` raise `AttributeError` on `None`), then for each of the two
chart groups that is nonempty and whose first chart's version matches the era
band, re-run the dedup assignment for this score (standard group first). -/
def plateScoreStep (songs : MaimaiSongs) (versions : List Nat)
    (d : PyDict (Int × SongType × LevelIndex) Score) (score : Score) :
    Except PyErr (PyDict (Int × SongType × LevelIndex) Score) :=
  match songs.by_id score.id with
  | none => Except.error PyErr.attributeErr
  | some song =>
      Except.ok (chartStageDedup versions score song.difficulties.dx
        (chartStageDedup versions score song.difficulties.standard d))

/-- One `if song.difficulties.X != []: if any(...): self.songs.append(song)`
block of the plate song loop, for one chart group. -/
def chartStageAppend (versions : List Nat) (song : Song) (charts : List SongDifficulty)
    (acc : List Song) : List Song :=
  match charts with
  | [] => acc
  | c :: _ => if eraMatch c.version versions then acc ++ [song] else acc

/-- One iteration of the plate song loop: the song is appended to the class-level
`MaimaiPlates.songs` list once per chart group whose first chart's version
matches the era band — a song both of whose groups match is appended twice. -/
def plateSongStep (versions : List Nat) (acc : List Song) (song : Song) : List Song :=
  chartStageAppend versions song song.difficulties.dx
    (chartStageAppend versions song song.difficulties.standard acc)

/-- `MaimaiPlates.__init__`.  `classSongs` is the current contents of the class
attribute `MaimaiPlates.songs = []`: the constructor appends to that shared list
(`self.songs.append(song)` resolves to the class-level list, which all instances
alias), while `self.scores` is assigned a fresh instance attribute.  Returns the
instance data together with the new contents of the shared class list. -/
def mkMaimaiPlates (classSongs : List Song) (scores : List Score)
    (version_str kind : String) (songs : MaimaiSongs) :
    Except PyErr (PlateInstance × List Song) :=
  let version_str := pyGetD plate_aliases version_str version_str
  let kind := pyGetD plate_aliases kind kind
  match resolvedVersions version_str with
  | none => Except.error PyErr.unboundLocalErr
  | some versions =>
      if versions = [] ∨ kind ∉ plateKinds then Except.error PyErr.invalidPlateErr
      else
        match scores.foldlM (plateScoreStep songs versions)
            ([] : PyDict (Int × SongType × LevelIndex) Score) with
        | Except.error e => Except.error e
        | Except.ok scores_unique =>
            let newClassSongs := (songs.songsList).foldl (plateSongStep versions) classSongs
            Except.ok
              ({ scores := pyValues scores_unique, version := version_str, kind := kind },
               newClassSongs)

/-- `MaimaiPlates.no_remaster`: `self.version not in ["舞", "霸"]`. -/
def PlateInstance.no_remaster (self : PlateInstance) : Bool :=
  decide (self.version ≠ "舞") && decide (self.version ≠ "霸")

/-- The level index of every chart of the song, standard group first. -/
def songLevelsRaw (song : Song) : List LevelIndex :=
  (song.difficulties.standard ++ song.difficulties.dx).map SongDifficulty.level_index

/-- Modelled from the spec: `Song.get_levels` (in `maimai_py/models.py`, not
among the sources) lists "all levels for this song" — the level index of every
chart in both difficulty groups, standard group first — and, when ReMASTER
levels are excluded, removes a single ReMASTER occurrence (`list.remove`). -/
def Song.get_levels (song : Song) (exclude_remaster : Bool) : List LevelIndex :=
  if exclude_remaster && (songLevelsRaw song).contains LevelIndex.ReMASTER then
    (songLevelsRaw song).erase LevelIndex.ReMASTER
  else songLevelsRaw song

/-- The kind-specific qualification predicate of the classification passes:
`者`/`将` compare the clear-rate tier, `极`/`神` the optional full-combo tier,
`舞舞` the optional full-sync tier (a missing optional tier is falsy). -/
def plateQualifies (kind : String) (score : Score) : Bool :=
  if kind = "者" then decide (score.rate.value ≤ RateType.A.value)
  else if kind = "将" then decide (score.rate.value ≤ RateType.SSS.value)
  else if kind = "极" then
    match score.fc with
    | some fc => decide (fc.value ≤ FCType.FC.value)
    | none => false
  else if kind = "舞舞" then
    match score.fs with
    | some fs => decide (fs.value ≤ FSType.FSD.value)
    | none => false
  else if kind = "神" then
    match score.fc with
    | some fc => decide (fc.value ≤ FCType.AP.value)
    | none => false
  else false

/-- `scores.setdefault(score.id, []).append(score)` over `self.scores`. -/
def groupScoresById (scores : List Score) : PyDict Int (List Score) :=
  scores.foldl (fun d score => pyUpdate d score.id (pyGetD d score.id [] ++ [score])) []

/-- One step of the views' dict comprehension. -/
def viewStep (mk : Song → PlateObject) (d : PyDict Int PlateObject) (song : Song) :
    PyDict Int PlateObject :=
  pyUpdate d song.id (mk song)

/-- The `results = {song.id: PlateObject(...) for song in self.songs}` dict
comprehension shared by the four views, parameterized by the per-song object. -/
def viewInit (mk : Song → PlateObject) (classSongs : List Song) : PyDict Int PlateObject :=
  classSongs.foldl (viewStep mk) []

/-- First occurrence of each song id in encounter order: the key structure of
the view dict comprehensions. -/
def firstByIdStep (acc : List Song) (s : Song) : List Song :=
  if acc.any (fun t => decide (t.id = s.id)) then acc else acc ++ [s]

def firstById (classSongs : List Song) : List Song :=
  classSongs.foldl firstByIdStep []

/-- The initial `results` dict of `MaimaiPlates.remained`: one `PlateObject` per
song id with all applicable levels and the song's grouped scores. -/
def remainedInit (self : PlateInstance) (classSongs : List Song) : PyDict Int PlateObject :=
  let grouped := groupScoresById self.scores
  viewInit
    (fun song =>
      { song := song, levels := song.get_levels self.no_remaster,
        score := pyGetD grouped song.id [] })
    classSongs

/-- `extract(score)` of `MaimaiPlates.remained`: return early on ReMASTER scores
when the plate has no ReMASTER requirement; otherwise remove the score from its
song's score list and, when present, its level index from the song's level list.
(Python would raise `KeyError` were `score.id` not a key of `results`; the
construction guarantees it is — every retained score's song passed the same era
test that put the song into the dict — and the embedding leaves the dict
unchanged in that unreachable case.) -/
def extractScore (no_rem : Bool) (d : PyDict Int PlateObject) (score : Score) :
    PyDict Int PlateObject :=
  if no_rem && decide (score.level_index = LevelIndex.ReMASTER) then d
  else
    d.map (fun p =>
      if p.1 = score.id then
        (p.1,
         { p.2 with
           score := p.2.score.erase score,
           levels :=
             if score.level_index ∈ p.2.levels then p.2.levels.erase score.level_index
             else p.2.levels })
      else p)

/-- `insert(score)` of `MaimaiPlates.cleared` (also the loop body of `played`):
return early on ReMASTER scores when the plate has no ReMASTER requirement;
otherwise append the score and its level index to its song's `PlateObject`. -/
def insertScore (no_rem : Bool) (d : PyDict Int PlateObject) (score : Score) :
    PyDict Int PlateObject :=
  if no_rem && decide (score.level_index = LevelIndex.ReMASTER) then d
  else
    d.map (fun p =>
      if p.1 = score.id then
        (p.1,
         { p.2 with
           score := p.2.score ++ [score],
           levels := p.2.levels ++ [score.level_index] })
      else p)

/-- `MaimaiPlates.remained`: start from all applicable levels, run `extract` over
the kind-qualifying scores, and keep the songs with remaining levels. -/
def platesRemained (self : PlateInstance) (classSongs : List Song) : List PlateObject :=
  let results := remainedInit self classSongs
  let results :=
    (self.scores.filter (plateQualifies self.kind)).foldl (extractScore self.no_remaster) results
  (pyValues results).filter (fun po => decide (po.levels ≠ []))

/-- `MaimaiPlates.cleared`: start from empty level lists, run `insert` over the
kind-qualifying scores, and keep the songs with at least one inserted level. -/
def platesCleared (self : PlateInstance) (classSongs : List Song) : List PlateObject :=
  let init := viewInit (fun song => { song := song, levels := [], score := [] }) classSongs
  let results :=
    (self.scores.filter (plateQualifies self.kind)).foldl (insertScore self.no_remaster) init
  (pyValues results).filter (fun po => decide (po.levels ≠ []))

/-- `MaimaiPlates.played`: like `cleared` but over all distinct scores. -/
def platesPlayed (self : PlateInstance) (classSongs : List Song) : List PlateObject :=
  let init := viewInit (fun song => { song := song, levels := [], score := [] }) classSongs
  let results := self.scores.foldl (insertScore self.no_remaster) init
  (pyValues results).filter (fun po => decide (po.levels ≠ []))

/-- `MaimaiPlates.all`: every applicable level of every matching song, no scores;
it returns `results.values()` without filtering empty-level songs. -/
def platesAll (self : PlateInstance) (classSongs : List Song) : List PlateObject :=
  pyValues (viewInit
    (fun song => { song := song, levels := song.get_levels self.no_remaster, score := [] })
    classSongs)

/-- Whether a song has a chart group passing the plate era test (the condition
under which `MaimaiPlates.__init__` admits the song and its scores). -/
def songEraOK (song : Song) (versions : List Nat) : Bool :=
  (match song.difficulties.standard with
   | [] => false
   | c :: _ => eraMatch c.version versions) ||
  (match song.difficulties.dx with
   | [] => false
   | c :: _ => eraMatch c.version versions)

/-- The chart group of a song a score's `type` refers to. -/
def chartOf (song : Song) : SongType → List SongDifficulty
  | SongType.standard => song.difficulties.standard
  | SongType.dx => song.difficulties.dx

/-- A score refers to an existing chart level of its song in the catalog. -/
def scoreWellFormed (songs : MaimaiSongs) (s : Score) : Bool :=
  match songs.by_id s.id with
  | none => false
  | some song => (chartOf song s.type).any (fun c => decide (c.level_index = s.level_index))

/-- Total number of level entries stored in a view dict. -/
def sumLevels (d : PyDict Int PlateObject) : Nat :=
  (d.map (fun p => p.2.levels.length)).sum

/-- Invariant of the plate score dict: entries keyed by their score's key, keys
distinct, values drawn from the input scores, and every value's song in the
catalog and era-matching. -/
def PlateDictInv (allScores : List Score) (songs : MaimaiSongs) (versions : List Nat)
    (d : PyDict (Int × SongType × LevelIndex) Score) : Prop :=
  (∀ p ∈ d, scoreKeyOf p.2 = p.1) ∧
    (pyKeys d).Nodup ∧
    (∀ p ∈ d, p.2 ∈ allScores) ∧
    (∀ p ∈ d, ∃ song, songs.by_id p.2.id = some song ∧ songEraOK song versions = true)

/-- `MaimaiPlates.played_num`: `len([level for plate in self.played for level in plate.levels])`. -/
def PlateInstance.played_num (self : PlateInstance) (classSongs : List Song) : Nat :=
  ((platesPlayed self classSongs).map (fun po => po.levels.length)).sum

/-- `MaimaiPlates.cleared_num`. -/
def PlateInstance.cleared_num (self : PlateInstance) (classSongs : List Song) : Nat :=
  ((platesCleared self classSongs).map (fun po => po.levels.length)).sum

/-- `MaimaiPlates.remained_num`. -/
def PlateInstance.remained_num (self : PlateInstance) (classSongs : List Song) : Nat :=
  ((platesRemained self classSongs).map (fun po => po.levels.length)).sum

/-- `MaimaiPlates.all_num`. -/
def PlateInstance.all_num (self : PlateInstance) (classSongs : List Song) : Nat :=
  ((platesAll self classSongs).map (fun po => po.levels.length)).sum

/-! ### Concrete example data used by witnesses and counterexamples -/

def exDiffsEmpty : SongDifficulties := { standard := [], dx := [] }

def exSong0 : Song :=
  { id := 0, title := "ZERO", artist := "a0", genre := "g0", bpm := 100,
    version := 10000, aliases := none, difficulties := exDiffsEmpty }

def exSong1 : Song :=
  { id := 1, title := "ONE", artist := "a1", genre := "g1", bpm := 120,
    version := 10000, aliases := none, difficulties := exDiffsEmpty }

def exAliasRec : SongAlias := { song_id := 1, aliases := ["uno"] }

def exScore98 : Score :=
  { id := 1, type := SongType.dx, level_index := LevelIndex.MASTER,
    achievements := 98, dx_score := 1000, dx_rating := 200, rate := RateType.SS,
    fc := none, fs := none }

def exScore99 : Score := { exScore98 with achievements := 99 }

def exScoreOrphan : Score := { exScore98 with id := 5 }

/-- A song with four standard charts released in the "真" era (version 11000). -/
def exPlateSong : Song :=
  { id := 1, title := "P1", artist := "a", genre := "g", bpm := 150,
    version := 11000, aliases := none,
    difficulties :=
      { standard :=
          [ { level_index := LevelIndex.BASIC, version := 11000 },
            { level_index := LevelIndex.ADVANCED, version := 11000 },
            { level_index := LevelIndex.EXPERT, version := 11000 },
            { level_index := LevelIndex.MASTER, version := 11000 } ],
        dx := [] } }

def exCatalogP : MaimaiSongs := mkMaimaiSongs [exPlateSong] []

/-- An SSS score on a ReMASTER chart slot the song does not have. -/
def exScoreRem : Score :=
  { id := 1, type := SongType.standard, level_index := LevelIndex.ReMASTER,
    achievements := 100, dx_score := 1000, dx_rating := 200, rate := RateType.SSS,
    fc := none, fs := none }

def exScoreMaster : Score := { exScoreRem with level_index := LevelIndex.MASTER }

/-- The state `maimaiScoresInit (some [exScore98]) (some [exScore99]) none`
produces. -/
def exScoresState : ScoresState :=
  { scores := [exScore98, exScore99], scores_b35 := [exScore98],
    scores_b15 := [exScore99], rating := 400, rating_b35 := 200, rating_b15 := 200 }

/-! ### Basic facts about the rank order -/

theorem rankLe_refl (a : Score) : rankLe a a := by
  right
  exact ⟨rfl, rfl, rfl⟩

theorem rankLt_irrefl (a : Score) : ¬ rankLt a a := by
  intro h
  rcases h with h | ⟨_, h | ⟨_, h⟩⟩ <;> exact lt_irrefl _ h

theorem rankLt_of_rankLe_of_rankLt {a b c : Score} (hab : rankLe a b) (hbc : rankLt b c) :
    rankLt a c := by
  rcases hab with hab | ⟨h1, h2, h3⟩
  · rcases hab with h | ⟨e1, h | ⟨e2, h⟩⟩ <;> rcases hbc with h' | ⟨e1', h' | ⟨e2', h'⟩⟩
    · exact Or.inl (lt_trans h h')
    · exact Or.inl (e1' ▸ h)
    · exact Or.inl (e1' ▸ h)
    · exact Or.inl (e1 ▸ h')
    · exact Or.inr ⟨e1.trans e1', Or.inl (lt_trans h h')⟩
    · exact Or.inr ⟨e1.trans e1', Or.inl (e2' ▸ h)⟩
    · exact Or.inl (e1 ▸ h')
    · exact Or.inr ⟨e1.trans e1', Or.inl (e2 ▸ h')⟩
    · exact Or.inr ⟨e1.trans e1', Or.inr ⟨e2.trans e2', lt_trans h h'⟩⟩
  · rcases hbc with h' | ⟨e1', h' | ⟨e2', h'⟩⟩
    · exact Or.inl (h1 ▸ h')
    · exact Or.inr ⟨h1.trans e1', Or.inl (h2 ▸ h')⟩
    · exact Or.inr ⟨h1.trans e1', Or.inr ⟨h2.trans e2', h3 ▸ h'⟩⟩

theorem rankLe_trans {a b c : Score} (hab : rankLe a b) (hbc : rankLe b c) : rankLe a c := by
  rcases hbc with hbc | ⟨h1, h2, h3⟩
  · exact Or.inl (rankLt_of_rankLe_of_rankLt hab hbc)
  · rcases hab with hab | ⟨g1, g2, g3⟩
    · refine Or.inl ?_
      rcases hab with h | ⟨e1, h | ⟨e2, h⟩⟩
      · exact Or.inl (h1 ▸ h)
      · exact Or.inr ⟨e1.trans h1, Or.inl (h2 ▸ h)⟩
      · exact Or.inr ⟨e1.trans h1, Or.inr ⟨e2.trans h2, h3 ▸ h⟩⟩
    · exact Or.inr ⟨g1.trans h1, g2.trans h2, g3.trans h3⟩

theorem rankLe_of_not_rankLt {a b : Score} (h : ¬ rankLt a b) : rankLe b a := by
  unfold rankLt at h
  push_neg at h
  obtain ⟨h1, h2⟩ := h
  rcases eq_or_lt_of_le h1 with e1 | l1
  · obtain ⟨h3, h4⟩ := h2 e1.symm
    rcases eq_or_lt_of_le h3 with e2 | l2
    · rcases eq_or_lt_of_le (h4 e2.symm) with e3 | l3
      · exact Or.inr ⟨e1, e2, e3⟩
      · exact Or.inl (Or.inr ⟨e1, Or.inr ⟨e2, l3⟩⟩)
    · exact Or.inl (Or.inr ⟨e1, Or.inl l2⟩)
  · exact Or.inl (Or.inl l1)

/-- `compare` returns one of its arguments. -/
theorem compare_mem (self : Score) (o : Option Score) :
    Score.compare self o = self ∨ (∃ x, o = some x ∧ Score.compare self o = x) := by
  cases o with
  | none => exact Or.inl rfl
  | some x =>
    by_cases h : rankLt x self
    · exact Or.inl (by simp [Score.compare, h])
    · exact Or.inr ⟨x, rfl, by simp [Score.compare, h]⟩

/-- The result of `compare` ranks at least as high as `self`. -/
theorem rankLe_compare_self (self : Score) (o : Option Score) :
    rankLe self (Score.compare self o) := by
  cases o with
  | none => exact rankLe_refl _
  | some x =>
    by_cases h : rankLt x self
    · simp only [Score.compare, h, if_pos]
      exact rankLe_refl _
    · simp only [Score.compare, h, if_neg, if_false]
      exact rankLe_of_not_rankLt h

/-- The result of `compare` ranks at least as high as the stored score. -/
theorem rankLe_compare_other (self x : Score) :
    rankLe x (Score.compare self (some x)) := by
  by_cases h : rankLt x self
  · simp only [Score.compare, h, if_pos]
    exact Or.inl h
  · simp only [Score.compare, h, if_neg, if_false]
    exact rankLe_refl _

/-! ### PyDict lemmas -/

theorem pyHasKey_iff {κ ν : Type} [DecidableEq κ] {d : PyDict κ ν} {k : κ} :
    pyHasKey d k = true ↔ ∃ p ∈ d, p.1 = k := by
  simp [pyHasKey, List.any_eq_true]

theorem pyHasKey_eq_false_iff {κ ν : Type} [DecidableEq κ] {d : PyDict κ ν} {k : κ} :
    pyHasKey d k = false ↔ ∀ p ∈ d, p.1 ≠ k := by
  simp [pyHasKey, List.any_eq_false]

theorem mem_pyUpdate_iff {κ ν : Type} [DecidableEq κ] {d : PyDict κ ν} {k : κ} {v : ν}
    {p : κ × ν} : p ∈ pyUpdate d k v ↔ (p ∈ d ∧ p.1 ≠ k) ∨ p = (k, v) := by
  unfold pyUpdate
  by_cases h : pyHasKey d k = true
  · rw [if_pos h]
    rw [List.mem_map]
    constructor
    · rintro ⟨q, hq, hfq⟩
      by_cases hk : q.1 = k
      · right
        rw [if_pos hk] at hfq
        exact hfq.symm
      · left
        rw [if_neg hk] at hfq
        exact hfq ▸ ⟨hq, hk⟩
    · rintro (⟨hp, hk⟩ | rfl)
      · exact ⟨p, hp, by rw [if_neg hk]⟩
      · obtain ⟨q, hq, hk⟩ := pyHasKey_iff.mp h
        exact ⟨q, hq, by rw [if_pos hk]⟩
  · rw [if_neg h]
    rw [List.mem_append, List.mem_singleton]
    have hnone := pyHasKey_eq_false_iff.mp (Bool.eq_false_iff.mpr h)
    constructor
    · rintro (hp | rfl)
      · exact Or.inl ⟨hp, hnone p hp⟩
      · exact Or.inr rfl
    · rintro (⟨hp, _⟩ | rfl)
      · exact Or.inl hp
      · exact Or.inr rfl

theorem pyGet?_eq_some_imp {κ ν : Type} [DecidableEq κ] {d : PyDict κ ν} {k : κ} {v : ν}
    (h : pyGet? d k = some v) : ∃ p ∈ d, p.1 = k ∧ p.2 = v := by
  unfold pyGet? at h
  cases hf : d.find? (fun p => decide (p.1 = k)) with
  | none => rw [hf] at h; exact absurd h (by simp)
  | some q =>
    rw [hf] at h
    simp only [Option.map_some', Option.some.injEq] at h
    have hq := List.find?_some hf
    have hmem := List.mem_of_find?_eq_some hf
    exact ⟨q, hmem, by simpa using hq, h⟩

theorem pyGet?_eq_none_iff {κ ν : Type} [DecidableEq κ] {d : PyDict κ ν} {k : κ} :
    pyGet? d k = none ↔ ∀ p ∈ d, p.1 ≠ k := by
  unfold pyGet?
  simp [Option.map_eq_none', List.find?_eq_none]
theorem songDictStep_entry_id {d : PyDict Int Song} (hd : ∀ p ∈ d, p.2.id = p.1)
    (s : Song) : ∀ p ∈ songDictStep d s, p.2.id = p.1 := by
  intro q hq
  rcases mem_pyUpdate_iff.mp hq with ⟨hq, _⟩ | rfl
  · exact hd q hq
  · rfl

theorem songDictFold_entry_id (l : List Song) :
    ∀ (d : PyDict Int Song), (∀ p ∈ d, p.2.id = p.1) →
      ∀ p ∈ l.foldl songDictStep d, p.2.id = p.1 := by
  induction l with
  | nil => intro d hd p hp; exact hd p hp
  | cons s rest ih => intro d hd p hp; exact ih _ (songDictStep_entry_id hd s) p hp

theorem aliasApply_entry_id {sd : PyDict Int Song}
    (hsd : ∀ p ∈ sd, p.2.id = p.1) (a : SongAlias) :
    ∀ p ∈ aliasApply sd a, p.2.id = p.1 := by
  intro q hq
  unfold aliasApply at hq
  split at hq
  case h_1 target hg =>
    rcases mem_pyUpdate_iff.mp hq with ⟨hq, _⟩ | rfl
    · exact hsd q hq
    · obtain ⟨p', hp', hk, hv⟩ := pyGet?_eq_some_imp hg
      have ht : target.id = a.song_id := by rw [← hv, ← hk]; exact hsd p' hp'
      simpa using ht
  case h_2 hg => exact hsd q hq

theorem aliasFold_entry_id (l : List SongAlias) :
    ∀ (st : PyDict Int Song × PyDict String Int), (∀ p ∈ st.1, p.2.id = p.1) →
      ∀ p ∈ (l.foldl aliasStep st).1, p.2.id = p.1 := by
  induction l with
  | nil => intro st hst p hp; exact hst p hp
  | cons a rest ih => intro st hst p hp; exact ih _ (aliasApply_entry_id hst a) p hp

/-- Every entry of the constructed id dict is keyed by its own song's id: the
initial fold inserts each song under `song.id`, and the alias pass only rewrites
the `aliases` field of an existing value in place. -/
theorem mkMaimaiSongs_entry_id (songs : List Song) (aliases : List SongAlias) :
    ∀ p ∈ (mkMaimaiSongs songs aliases).song_id_dict, p.2.id = p.1 :=
  aliasFold_entry_id aliases _
    (songDictFold_entry_id songs [] (by intro p hp; exact absurd hp (List.not_mem_nil _)))

theorem aliasInnerFold_no_key {a : String} {sid : Int} (entries : List String) :
    ∀ (ad : PyDict String Int), (∀ p ∈ ad, p.1 ≠ a) → a ∉ entries →
      ∀ p ∈ entries.foldl (fun ad entry => pyUpdate ad entry sid) ad, p.1 ≠ a := by
  induction entries with
  | nil => intro ad had _ p hp; exact had p hp
  | cons e rest ih =>
    intro ad had hna p hp
    refine ih _ ?_ (fun h => hna (List.mem_cons_of_mem _ h)) p hp
    intro q hq
    rcases mem_pyUpdate_iff.mp hq with ⟨hq, _⟩ | rfl
    · exact had q hq
    · exact fun h => hna (h ▸ List.mem_cons_self _ _)

theorem aliasFold_no_key {a : String} (l : List SongAlias) :
    ∀ (st : PyDict Int Song × PyDict String Int), (∀ p ∈ st.2, p.1 ≠ a) →
      (∀ sa ∈ l, a ∉ sa.aliases) → ∀ p ∈ (l.foldl aliasStep st).2, p.1 ≠ a := by
  induction l with
  | nil => intro st hst _ p hp; exact hst p hp
  | cons sa rest ih =>
    intro st hst hl p hp
    refine ih _ ?_ (fun x hx => hl x (List.mem_cons_of_mem _ hx)) p hp
    exact aliasInnerFold_no_key sa.aliases st.2 hst (hl sa (List.mem_cons_self _ _))

/-! ### Claim C9: `by_id` and modulo normalization -/

/-- Claim C9 counterexample: the catalog does not reduce ids modulo 10000 —
`by_id(10001)` misses a catalog containing song id 1 while
`by_id(10001 % 10000)` finds it, so `by_id(x) = by_id(x % 10000)` fails. -/
theorem C9_by_id_modulo_counterexample :
    ¬ ((mkMaimaiSongs [exSong1] []).by_id 10001 =
        (mkMaimaiSongs [exSong1] []).by_id ((10001 : Int) % 10000)) := by
  decide

/-- Claim C9 (amended): `by_id` performs a plain dictionary lookup with no
modulo reduction — a song is returned only under exactly the id it was stored
with; normalization is the caller's job, as the source docstring says. -/
theorem C9_by_id_plain_lookup (songs : List Song) (aliases : List SongAlias)
    (x : Int) (s : Song) (h : (mkMaimaiSongs songs aliases).by_id x = some s) :
    s.id = x := by
  unfold MaimaiSongs.by_id at h
  obtain ⟨p, hp, hk, hv⟩ := pyGet?_eq_some_imp h
  rw [← hv, ← hk]
  exact mkMaimaiSongs_entry_id songs aliases p hp

/-- Claim C9 witness: the amended lookup law applied at a concrete catalog. -/
theorem C9_by_id_plain_lookup_witness : exSong1.id = 1 :=
  C9_by_id_plain_lookup [exSong1] [] 1 exSong1 (by decide)

/-! ### Claim C10: `by_alias` on unregistered aliases -/

/-- Claim C10: for every catalog and every alias string not registered by any
alias record, `by_alias` returns exactly `by_id(0)` — `None` when no id-0 song
exists, and the id-0 song when one does. -/
theorem C10_by_alias_unregistered (songs : List Song) (aliases : List SongAlias)
    (a : String) (h : ∀ sa ∈ aliases, a ∉ sa.aliases) :
    (mkMaimaiSongs songs aliases).by_alias a = (mkMaimaiSongs songs aliases).by_id 0 := by
  have hkey : ∀ p ∈ (mkMaimaiSongs songs aliases).alias_entry_dict, p.1 ≠ a :=
    aliasFold_no_key aliases _ (fun p hp => absurd hp (List.not_mem_nil _)) h
  have hnone : pyGet? (mkMaimaiSongs songs aliases).alias_entry_dict a = none :=
    pyGet?_eq_none_iff.mpr hkey
  unfold MaimaiSongs.by_alias pyGetD
  rw [hnone]
  rfl

/-- Claim C10 witness: with song id 0 present in the catalog, an unregistered
alias string returns the id-0 song rather than `None`. -/
theorem C10_by_alias_unregistered_witness :
    (mkMaimaiSongs [exSong0, exSong1] [exAliasRec]).by_alias "missing" =
        (mkMaimaiSongs [exSong0, exSong1] [exAliasRec]).by_id 0 ∧
      (mkMaimaiSongs [exSong0, exSong1] [exAliasRec]).by_id 0 = some exSong0 :=
  ⟨C10_by_alias_unregistered [exSong0, exSong1] [exAliasRec] "missing" (by decide), by decide⟩

/-! ### Claim C3: plate version-token resolution -/

/-- Claim C3: the version-token resolution mishandles "真" — the three `if`s are
not an `elif` chain, so the final `if plate_to_version.get(version_str)`
overrides the dedicated first branch and "真" resolves to the single ordinal
mapped by "真" instead of the pair for "初" and "真"; the "舞"/"霸" band and
the single-ordinal tokens resolve as described. -/
theorem C3_resolvedVersions_zhen_overridden :
    resolvedVersions "真" = some [pyGetD plate_to_version "真" 0] ∧
      resolvedVersions "真" ≠
        some [pyGetD plate_to_version "初" 0, pyGetD plate_to_version "真" 0] ∧
      resolvedVersions "舞" =
        some ((pyValues plate_to_version).filter (fun ver => decide (ver < 20000))) ∧
      resolvedVersions "超" = some [pyGetD plate_to_version "超" 0] := by
  decide

/-! ### Claim C6: invalid-plate error behaviour -/

/-- Claim C6: an unrecognized version token does not raise the invalid-plate
error — none of the three `if`s assigns `versions`, so `if not versions` reads
an unassigned local and `UnboundLocalError` is raised instead; only a
specification whose `versions` got assigned but whose goal kind is invalid
reaches `InvalidPlateError`. -/
theorem C6_unrecognized_version_unbound_local :
    mkMaimaiPlates [] [] "泥" "将" (mkMaimaiSongs [] []) =
        Except.error PyErr.unboundLocalErr ∧
      mkMaimaiPlates [] [] "超" "泥" (mkMaimaiSongs [] []) =
        Except.error PyErr.invalidPlateErr := by
  decide

/-! ### Claim C8: plate construction is not reentrant -/

/-- Claim C8: `MaimaiPlates.songs` is a mutable class attribute that `__init__`
appends to, so constructions share state — a first run from a clean class list
yields one song, and a second run with identical arguments appends to the same
shared list (which the first instance's `songs` aliases), yielding a different,
longer list. -/
theorem C8_class_songs_shared_counterexample :
    (mkMaimaiPlates [] [] "真" "将" exCatalogP).map (fun r => r.2) =
        Except.ok [exPlateSong] ∧
      (mkMaimaiPlates [exPlateSong] [] "真" "将" exCatalogP).map (fun r => r.2) =
        Except.ok [exPlateSong, exPlateSong] ∧
      ([exPlateSong] : List Song) ≠ [exPlateSong, exPlateSong] := by
  decide

/-! ### Claim C1: deriving b35/b15 from a full score list -/

/-- Claim C1: deriving the best subsets from a full score list always fails —
the source computes `(scores_old.sort(key=...))[:35]`, `list.sort` returns
`None`, and subscripting `None` raises `TypeError` — so the sorted top-35 and
top-15 described by the claim are never produced, even for a singleton list
whose song is in the catalog and whose rating fields are populated. -/
theorem C1_derive_bests_type_error :
    maimaiScoresInit none none (some [exScore98]) (mkMaimaiSongs [exSong1] []) =
      Except.error PyErr.typeErr := by
  decide

/-! ### Claim C5: rating sums and length bounds -/

/-- Claim C5 counterexample: construction does not enforce the length bounds on
precomputed lists — a 36-element b35 is stored as-is, so
`len(scores_b35) <= 35` fails for a successfully constructed instance. -/
theorem C5_length_bound_counterexample :
    (maimaiScoresInit (some (List.replicate 36 exScore98)) (some [exScore99]) none
        (mkMaimaiSongs [] [])).map (fun st => st.scores_b35.length) = Except.ok 36 := by
  decide

/-- Claim C5 (amended): for every successfully constructed `MaimaiScores`,
`rating = rating_b35 + rating_b15`, and those two are the dx-rating sums over
`scores_b35` and `scores_b15`; the 35/15 length bounds hold only when the
caller-supplied precomputed lists already respect them — the constructor
neither checks nor truncates (and the derive-from-all path never completes). -/
theorem C5_rating_sum_invariant (b35 b15 all : Option (List Score))
    (songs : MaimaiSongs) (st : ScoresState)
    (h : maimaiScoresInit b35 b15 all songs = Except.ok st) :
    st.rating = st.rating_b35 + st.rating_b15 ∧
      st.rating_b35 = (st.scores_b35.map Score.dx_rating).sum ∧
      st.rating_b15 = (st.scores_b15.map Score.dx_rating).sum := by
  unfold maimaiScoresInit at h
  cases hs : scoresOrSum b35 b15 all with
  | error e => rw [hs] at h; exact absurd h (by simp [Bind.bind, Except.bind])
  | ok scores =>
    rw [hs] at h
    simp only [Bind.bind, Except.bind] at h
    split at h
    · exact absurd h (by simp)
    · split at h
      · rw [Except.ok.injEq] at h
        subst h
        exact ⟨rfl, rfl, rfl⟩
      · exact absurd h (by simp)

/-- Claim C5 witness: the rating-sum invariant at a concrete construction. -/
theorem C5_rating_sum_invariant_witness :
    exScoresState.rating = exScoresState.rating_b35 + exScoresState.rating_b15 ∧
      exScoresState.rating_b35 = (exScoresState.scores_b35.map Score.dx_rating).sum ∧
      exScoresState.rating_b15 = (exScoresState.scores_b15.map Score.dx_rating).sum :=
  C5_rating_sum_invariant (some [exScore98]) (some [exScore99]) none
    (mkMaimaiSongs [] []) exScoresState (by decide)

/-! ### Claim C7: scores missing from the catalog during partitioning -/

theorem partitionFold_resolvable (songs : MaimaiSongs) (distinct : List Score) :
    ∀ (pools : List Score × List Score),
      (∀ s, s ∈ pools.1 ∨ s ∈ pools.2 → (songs.by_id s.id).isSome) →
      ∀ s, (s ∈ (distinct.foldl (partitionStep songs) pools).1 ∨
            s ∈ (distinct.foldl (partitionStep songs) pools).2) →
        (songs.by_id s.id).isSome := by
  induction distinct with
  | nil => intro pools hp s hs; exact hp s hs
  | cons sc rest ih =>
    intro pools hp s hs
    refine ih (partitionStep songs pools sc) ?_ s hs
    intro t ht
    unfold partitionStep at ht
    split at ht
    · rename_i song hb
      split at ht
      · rcases ht with ht | ht
        · rcases List.mem_append.mp ht with ht | ht
          · exact hp t (Or.inl ht)
          · rw [List.mem_singleton.mp ht, hb]; rfl
        · exact hp t (Or.inr ht)
      · rcases ht with ht | ht
        · exact hp t (Or.inl ht)
        · rcases List.mem_append.mp ht with ht | ht
          · exact hp t (Or.inr ht)
          · rw [List.mem_singleton.mp ht, hb]; rfl
    · exact hp t ht

/-- Claim C7 (amended): during best-subset partitioning, a score whose song id
is absent from the catalog is silently skipped by the walrus guard — it lands in
neither pool and the partition signals no error; no `MissingCatalogEntry`-style
failure exists at the point of detection. -/
theorem C7_orphan_scores_silently_dropped (songs : MaimaiSongs)
    (distinct : List Score) (s : Score) (h : songs.by_id s.id = none) :
    s ∉ (partitionByVersion songs distinct).1 ∧
      s ∉ (partitionByVersion songs distinct).2 := by
  constructor <;> intro hmem
  · have := partitionFold_resolvable songs distinct ([], [])
      (fun t ht => by rcases ht with ht | ht <;> exact absurd ht (List.not_mem_nil _))
      s (Or.inl hmem)
    rw [h] at this
    exact absurd this (by simp)
  · have := partitionFold_resolvable songs distinct ([], [])
      (fun t ht => by rcases ht with ht | ht <;> exact absurd ht (List.not_mem_nil _))
      s (Or.inr hmem)
    rw [h] at this
    exact absurd this (by simp)

/-- Claim C7 counterexample: a concrete orphan score is dropped from both pools
with no error from the partition; the construction as a whole does fail, but
with the unrelated sort `TypeError`, not a missing-catalog-entry error. -/
theorem C7_missing_entry_counterexample :
    partitionByVersion (mkMaimaiSongs [exSong1] []) [exScoreOrphan] = ([], []) ∧
      maimaiScoresInit none none (some [exScoreOrphan]) (mkMaimaiSongs [exSong1] []) =
        Except.error PyErr.typeErr := by
  decide

/-- Claim C7 witness: the silent-drop law applied at the concrete orphan. -/
theorem C7_orphan_scores_silently_dropped_witness :
    exScoreOrphan ∉ (partitionByVersion (mkMaimaiSongs [exSong1] []) [exScoreOrphan]).1 ∧
      exScoreOrphan ∉ (partitionByVersion (mkMaimaiSongs [exSong1] []) [exScoreOrphan]).2 :=
  C7_orphan_scores_silently_dropped (mkMaimaiSongs [exSong1] []) [exScoreOrphan]
    exScoreOrphan (by decide)

/-! ### PyDict update and lookup lemmas -/

theorem pyHasKey_iff_mem_keys {κ ν : Type} [DecidableEq κ] {d : PyDict κ ν} {k : κ} :
    pyHasKey d k = true ↔ k ∈ pyKeys d := by
  rw [pyHasKey_iff]
  constructor
  · rintro ⟨p, hp, hk⟩
    exact hk ▸ List.mem_map_of_mem (fun p => p.1) hp
  · intro hk
    obtain ⟨p, hp, he⟩ := List.mem_map.mp hk
    exact ⟨p, hp, he⟩

theorem pyKeys_pyUpdate {κ ν : Type} [DecidableEq κ] (d : PyDict κ ν) (k : κ) (v : ν) :
    pyKeys (pyUpdate d k v) =
      if pyHasKey d k = true then pyKeys d else pyKeys d ++ [k] := by
  unfold pyUpdate
  by_cases h : pyHasKey d k = true
  · rw [if_pos h, if_pos h]
    unfold pyKeys
    rw [List.map_map]
    refine List.map_congr_left ?_
    intro p _
    by_cases hk : p.1 = k
    · simp [Function.comp, hk]
    · simp [Function.comp, hk]
  · rw [if_neg h, if_neg h]
    unfold pyKeys
    simp

theorem pyKeys_nodup_pyUpdate {κ ν : Type} [DecidableEq κ] {d : PyDict κ ν}
    (hd : (pyKeys d).Nodup) (k : κ) (v : ν) : (pyKeys (pyUpdate d k v)).Nodup := by
  rw [pyKeys_pyUpdate]
  by_cases h : pyHasKey d k = true
  · rwa [if_pos h]
  · rw [if_neg h]
    have hnk : k ∉ pyKeys d := fun hc => h (pyHasKey_iff_mem_keys.mpr hc)
    rw [List.nodup_append]
    exact ⟨hd, List.nodup_singleton _, by
      intro a ha hb
      rw [List.mem_singleton.mp hb] at ha
      exact hnk ha⟩

theorem pyFind?_eq_none_iff {κ ν : Type} [DecidableEq κ] {d : PyDict κ ν} {k : κ} :
    d.find? (fun p => decide (p.1 = k)) = none ↔ ∀ p ∈ d, p.1 ≠ k := by
  rw [List.find?_eq_none]
  simp

theorem find?_append_eq {α : Type} (l₁ l₂ : List α) (p : α → Bool) :
    (l₁ ++ l₂).find? p = ((l₁.find? p).orElse (fun _ => l₂.find? p)) := by
  induction l₁ with
  | nil => simp
  | cons a rest ih =>
    cases ha : p a with
    | true => simp [List.find?_cons, ha]
    | false => simp [List.find?_cons, ha, ih]

theorem find?_map_replace_self {κ ν : Type} [DecidableEq κ] (d : PyDict κ ν) (k : κ) (v : ν) :
    (d.map (fun p => if p.1 = k then (k, v) else p)).find? (fun p => decide (p.1 = k)) =
      (d.find? (fun p => decide (p.1 = k))).map (fun _ => (k, v)) := by
  induction d with
  | nil => simp
  | cons q rest ih =>
    by_cases hq : q.1 = k
    · simp [List.find?_cons, hq]
    · simp [List.find?_cons, hq, ih]

theorem find?_map_replace_ne {κ ν : Type} [DecidableEq κ] (d : PyDict κ ν) {k k' : κ}
    (hne : k' ≠ k) (v : ν) :
    (d.map (fun p => if p.1 = k then (k, v) else p)).find? (fun p => decide (p.1 = k')) =
      d.find? (fun p => decide (p.1 = k')) := by
  induction d with
  | nil => simp
  | cons q rest ih =>
    by_cases hq : q.1 = k
    · simp [List.find?_cons, hq, Ne.symm hne, ih]
    · by_cases hq' : q.1 = k'
      · simp only [List.map_cons, if_neg hq]
        simp [List.find?_cons, hq']
      · simp only [List.map_cons, if_neg hq]
        simp [List.find?_cons, hq', ih]

theorem pyGet?_pyUpdate_self {κ ν : Type} [DecidableEq κ] (d : PyDict κ ν) (k : κ) (v : ν) :
    pyGet? (pyUpdate d k v) k = some v := by
  unfold pyUpdate pyGet?
  by_cases h : pyHasKey d k = true
  · rw [if_pos h, find?_map_replace_self]
    obtain ⟨p, hp, hk⟩ := pyHasKey_iff.mp h
    cases hf : d.find? (fun p => decide (p.1 = k)) with
    | none => exact absurd (pyFind?_eq_none_iff.mp hf p hp) (by simp [hk])
    | some q => rfl
  · rw [if_neg h, find?_append_eq]
    have hf : d.find? (fun p => decide (p.1 = k)) = none :=
      pyFind?_eq_none_iff.mpr (pyHasKey_eq_false_iff.mp (Bool.eq_false_iff.mpr h))
    rw [hf]
    simp [List.find?_cons]

theorem pyGet?_pyUpdate_ne {κ ν : Type} [DecidableEq κ] (d : PyDict κ ν) {k k' : κ}
    (hne : k' ≠ k) (v : ν) : pyGet? (pyUpdate d k v) k' = pyGet? d k' := by
  unfold pyUpdate pyGet?
  by_cases h : pyHasKey d k = true
  · rw [if_pos h, find?_map_replace_ne d hne]
  · rw [if_neg h, find?_append_eq]
    cases hf : d.find? (fun p => decide (p.1 = k')) with
    | some q => rfl
    | none => simp [List.find?_cons, Ne.symm hne]

theorem pyGet?_isSome_of_hasKey {κ ν : Type} [DecidableEq κ] {d : PyDict κ ν} {k : κ}
    (h : pyHasKey d k = true) : ∃ x, pyGet? d k = some x := by
  cases hg : pyGet? d k with
  | some x => exact ⟨x, rfl⟩
  | none =>
    obtain ⟨p, hp, hk⟩ := pyHasKey_iff.mp h
    exact absurd (pyGet?_eq_none_iff.mp hg p hp) (by simp [hk])

/-! ### Dedup invariant (Claim C2 and the plate score filter) -/

theorem scoreKeyOf_dedup_value {d : PyDict (Int × SongType × LevelIndex) Score}
    (keyed : ∀ p ∈ d, scoreKeyOf p.2 = p.1) (s : Score) :
    scoreKeyOf (s.compare (pyGet? d (scoreKeyOf s))) = scoreKeyOf s := by
  rcases compare_mem s (pyGet? d (scoreKeyOf s)) with hc | ⟨x, hx, hc⟩
  · rw [hc]
  · rw [hc]
    obtain ⟨p, hp, hk1, hv1⟩ := pyGet?_eq_some_imp hx
    rw [← hv1, keyed p hp, hk1]

theorem dedupInv_nil : DedupInv [] [] :=
  ⟨fun p hp => absurd hp (List.not_mem_nil _), List.nodup_nil,
   fun s hs => absurd hs (List.not_mem_nil _),
   fun p hp => absurd hp (List.not_mem_nil _),
   fun p hp => absurd hp (List.not_mem_nil _)⟩

theorem dedupInv_step {processed : List Score}
    {d : PyDict (Int × SongType × LevelIndex) Score}
    (inv : DedupInv processed d) (s : Score) :
    DedupInv (processed ++ [s]) (dedupStep d s) := by
  obtain ⟨keyed, nodup, complete, source, domin⟩ := inv
  refine ⟨?_, ?_, ?_, ?_, ?_⟩
  · intro p hp
    rcases mem_pyUpdate_iff.mp hp with ⟨hp, _⟩ | rfl
    · exact keyed p hp
    · exact scoreKeyOf_dedup_value keyed s
  · exact pyKeys_nodup_pyUpdate nodup _ _
  · intro t ht
    have hkeys := pyKeys_pyUpdate d (scoreKeyOf s) (s.compare (pyGet? d (scoreKeyOf s)))
    rcases List.mem_append.mp ht with ht | ht
    · rw [pyHasKey_iff_mem_keys]
      unfold dedupStep
      rw [hkeys]
      by_cases h : pyHasKey d (scoreKeyOf s) = true
      · rw [if_pos h]
        exact pyHasKey_iff_mem_keys.mp (complete t ht)
      · rw [if_neg h]
        exact List.mem_append.mpr (Or.inl (pyHasKey_iff_mem_keys.mp (complete t ht)))
    · rw [List.mem_singleton.mp ht, pyHasKey_iff_mem_keys]
      unfold dedupStep
      rw [hkeys]
      by_cases h : pyHasKey d (scoreKeyOf s) = true
      · rw [if_pos h]
        exact pyHasKey_iff_mem_keys.mp h
      · rw [if_neg h]
        exact List.mem_append.mpr (Or.inr (List.mem_singleton_self _))
  · intro p hp
    rcases mem_pyUpdate_iff.mp hp with ⟨hp, _⟩ | rfl
    · exact List.mem_append.mpr (Or.inl (source p hp))
    · rcases compare_mem s (pyGet? d (scoreKeyOf s)) with hc | ⟨x, hx, hc⟩
      · rw [hc]
        exact List.mem_append.mpr (Or.inr (List.mem_singleton_self _))
      · rw [hc]
        obtain ⟨q, hq, _, hv1⟩ := pyGet?_eq_some_imp hx
        exact List.mem_append.mpr (Or.inl (hv1 ▸ source q hq))
  · intro p hp t ht hkey
    rcases mem_pyUpdate_iff.mp hp with ⟨hp, hpk⟩ | rfl
    · rcases List.mem_append.mp ht with ht | ht
      · exact domin p hp t ht hkey
      · rw [List.mem_singleton.mp ht] at hkey
        exact absurd hkey.symm hpk
    · rcases List.mem_append.mp ht with ht | ht
      · have hkey' : scoreKeyOf t = scoreKeyOf s := hkey
        have hhk : pyHasKey d (scoreKeyOf t) = true := complete t ht
        rw [hkey'] at hhk
        obtain ⟨x, hx⟩ := pyGet?_isSome_of_hasKey hhk
        obtain ⟨q, hq, hqk, hqv⟩ := pyGet?_eq_some_imp hx
        have h1 : rankLe t x := hqv ▸ domin q hq t ht (hkey'.trans hqk.symm)
        have h2 : rankLe x (s.compare (pyGet? d (scoreKeyOf s))) := by
          rw [hx]
          exact rankLe_compare_other s x
        exact rankLe_trans h1 h2
      · rw [List.mem_singleton.mp ht]
        exact rankLe_compare_self s _

theorem dedupInv_fold (rest : List Score) :
    ∀ (processed : List Score) (d : PyDict (Int × SongType × LevelIndex) Score),
      DedupInv processed d → DedupInv (processed ++ rest) (rest.foldl dedupStep d) := by
  induction rest with
  | nil => intro processed d inv; simpa using inv
  | cons s rest ih =>
    intro processed d inv
    have h := ih (processed ++ [s]) (dedupStep d s) (dedupInv_step inv s)
    rw [List.append_assoc] at h
    simpa using h

/-! ### Claim C2: deduplication -/

/-- Claim C2: `_get_distinct_scores` returns exactly one score per distinct
`(song id, chart type, level index)` key occurring in the input, each retained
score is one of the input scores, and it dominates every input score sharing its
key under the descending `(dx_rating, dx_score, achievements)` order (ties are
broken deterministically — the first encountered maximum is kept). -/
theorem C2_distinct_scores_correct (scores : List Score) :
    ((getDistinctScores scores).map scoreKeyOf).Nodup ∧
      (∀ s ∈ scores, ∃ t ∈ getDistinctScores scores, scoreKeyOf t = scoreKeyOf s) ∧
      (∀ t ∈ getDistinctScores scores,
        t ∈ scores ∧ ∀ s ∈ scores, scoreKeyOf s = scoreKeyOf t → rankLe s t) := by
  have inv : DedupInv scores (scores.foldl dedupStep []) := by
    have h := dedupInv_fold scores [] [] dedupInv_nil
    simpa using h
  obtain ⟨keyed, nodup, complete, source, domin⟩ := inv
  refine ⟨?_, ?_, ?_⟩
  · have : (getDistinctScores scores).map scoreKeyOf = pyKeys (scores.foldl dedupStep []) := by
      unfold getDistinctScores pyValues pyKeys
      rw [List.map_map]
      exact List.map_congr_left (fun p hp => keyed p hp)
    rw [this]
    exact nodup
  · intro s hs
    obtain ⟨x, hx⟩ := pyGet?_isSome_of_hasKey (complete s hs)
    obtain ⟨p, hp, hpk, hpv⟩ := pyGet?_eq_some_imp hx
    exact ⟨p.2, List.mem_map_of_mem (fun p => p.2) hp, (keyed p hp).trans hpk⟩
  · intro t ht
    obtain ⟨p, hp, hpv⟩ := List.mem_map.mp ht
    refine ⟨hpv ▸ source p hp, ?_⟩
    intro s hs hkey
    have : scoreKeyOf s = p.1 := by rw [hkey, ← hpv, keyed p hp]
    exact hpv ▸ domin p hp s hs this

/-- Claim C2 witness: deduplicating two scores for the same chart keeps one that
is in the input and dominates the other. -/
theorem C2_distinct_scores_correct_witness :
    exScore99 ∈ [exScore98, exScore99] ∧ rankLe exScore98 exScore99 := by
  have h := (C2_distinct_scores_correct [exScore98, exScore99]).2.2 exScore99 (by decide)
  exact ⟨h.1, h.2 exScore98 (by decide) (by decide)⟩

/-! ### View-dict structure lemmas (Claim C4) -/

theorem pyUpdate_self_noop {κ ν : Type} [DecidableEq κ] {d : PyDict κ ν} {k : κ} {v : ν}
    (hall : ∀ p ∈ d, p.1 = k → p = (k, v)) (hk : pyHasKey d k = true) :
    pyUpdate d k v = d := by
  unfold pyUpdate
  rw [if_pos hk]
  have : d.map (fun p => if p.1 = k then (k, v) else p) = d.map (fun p => p) :=
    List.map_congr_left (fun p hp => by
      by_cases hpk : p.1 = k
      · rw [if_pos hpk]
        exact (hall p hp hpk).symm
      · rw [if_neg hpk])
  rw [this, List.map_id']

theorem firstById_fold_subset (l : List Song) :
    ∀ acc, ∀ s ∈ l.foldl firstByIdStep acc, s ∈ acc ∨ s ∈ l := by
  induction l with
  | nil => intro acc s hs; exact Or.inl hs
  | cons x rest ih =>
    intro acc s hs
    rcases ih (firstByIdStep acc x) s hs with h | h
    · unfold firstByIdStep at h
      by_cases hx : acc.any (fun t => decide (t.id = x.id)) = true
      · rw [if_pos hx] at h
        exact Or.inl h
      · rw [if_neg hx] at h
        rcases List.mem_append.mp h with h | h
        · exact Or.inl h
        · exact Or.inr (List.mem_singleton.mp h ▸ List.mem_cons_self _ _)
    · exact Or.inr (List.mem_cons_of_mem _ h)

theorem firstById_fold_ids_nodup (l : List Song) :
    ∀ acc, (acc.map Song.id).Nodup → ((l.foldl firstByIdStep acc).map Song.id).Nodup := by
  induction l with
  | nil => intro acc h; exact h
  | cons x rest ih =>
    intro acc h
    refine ih _ ?_
    unfold firstByIdStep
    by_cases hx : acc.any (fun t => decide (t.id = x.id)) = true
    · rw [if_pos hx]; exact h
    · rw [if_neg hx, List.map_append, List.nodup_append]
      refine ⟨h, by simp, ?_⟩
      intro a ha hb
      simp only [List.map_cons, List.map_nil, List.mem_singleton] at hb
      subst hb
      obtain ⟨t, ht, hti⟩ := List.mem_map.mp ha
      have hhx := List.any_eq_false.mp (Bool.eq_false_iff.mpr hx) t ht
      simp only [decide_eq_true_eq] at hhx
      exact hhx hti

theorem firstById_fold_mem_ids (l : List Song) :
    ∀ acc, ∀ s : Song, (s.id ∈ acc.map Song.id ∨ s ∈ l) →
      s.id ∈ (l.foldl firstByIdStep acc).map Song.id := by
  induction l with
  | nil =>
    intro acc s hs
    exact hs.resolve_right (List.not_mem_nil _)
  | cons x rest ih =>
    intro acc s hs
    refine ih _ s ?_
    unfold firstByIdStep
    by_cases hx : acc.any (fun t => decide (t.id = x.id)) = true
    · rw [if_pos hx]
      rcases hs with h | h
      · exact Or.inl h
      · rcases List.mem_cons.mp h with rfl | h
        · obtain ⟨t, ht, hti⟩ := List.any_eq_true.mp hx
          simp only [decide_eq_true_eq] at hti
          exact Or.inl (hti ▸ List.mem_map_of_mem Song.id ht)
        · exact Or.inr h
    · rw [if_neg hx]
      rcases hs with h | h
      · exact Or.inl (List.map_append Song.id acc [x] ▸ List.mem_append.mpr (Or.inl h))
      · rcases List.mem_cons.mp h with rfl | h
        · refine Or.inl ?_
          rw [List.map_append]
          exact List.mem_append.mpr (Or.inr (by simp))
        · exact Or.inr h

theorem any_map_eq {α β : Type} (l : List α) (f : α → β) (p : β → Bool) :
    (l.map f).any p = l.any (fun a => p (f a)) := by
  induction l with
  | nil => rfl
  | cons a rest ih => simp [List.any_cons, ih]

theorem viewInit_fold_closed (mk : Song → PlateObject) (l : List Song) :
    ∀ acc : List Song,
      (∀ s1, (s1 ∈ acc ∨ s1 ∈ l) → ∀ s2, (s2 ∈ acc ∨ s2 ∈ l) → s1.id = s2.id → s1 = s2) →
      l.foldl (viewStep mk) (acc.map (fun s => (s.id, mk s))) =
        (l.foldl firstByIdStep acc).map (fun s => (s.id, mk s)) := by
  induction l with
  | nil => intro acc _; rfl
  | cons x rest ih =>
    intro acc hinj
    simp only [List.foldl_cons]
    have hany : pyHasKey (acc.map (fun s => (s.id, mk s))) x.id =
        acc.any (fun t => decide (t.id = x.id)) := by
      unfold pyHasKey
      rw [any_map_eq]
    by_cases hx : acc.any (fun t => decide (t.id = x.id)) = true
    · have hupd : viewStep mk (acc.map (fun s => (s.id, mk s))) x =
          acc.map (fun s => (s.id, mk s)) := by
        unfold viewStep
        refine pyUpdate_self_noop ?_ (hany.trans hx)
        intro p hp hpk
        obtain ⟨t, ht, hpt⟩ := List.mem_map.mp hp
        have hte : t = x := hinj t (Or.inl ht) x (Or.inr (List.mem_cons_self _ _))
          (by rw [← hpt] at hpk; exact hpk)
        rw [← hpt, hte]
      rw [hupd]
      have hfs : firstByIdStep acc x = acc := by
        unfold firstByIdStep
        rw [if_pos hx]
      rw [hfs]
      exact ih acc (fun s1 h1 s2 h2 he =>
        hinj s1 (h1.imp id (List.mem_cons_of_mem x)) s2 (h2.imp id (List.mem_cons_of_mem x)) he)
    · have hany' : pyHasKey (acc.map (fun s => (s.id, mk s))) x.id = false := by
        rw [hany]
        exact Bool.eq_false_iff.mpr hx
      have hupd : viewStep mk (acc.map (fun s => (s.id, mk s))) x =
          (acc ++ [x]).map (fun s => (s.id, mk s)) := by
        unfold viewStep pyUpdate
        rw [hany']
        simp
      rw [hupd]
      have hfs : firstByIdStep acc x = acc ++ [x] := by
        unfold firstByIdStep
        rw [if_neg hx]
      rw [hfs]
      refine ih (acc ++ [x]) ?_
      intro s1 h1 s2 h2 he
      have w : ∀ s, (s ∈ acc ++ [x] ∨ s ∈ rest) → (s ∈ acc ∨ s ∈ x :: rest) := by
        intro s hs
        rcases hs with hs | hs
        · rcases List.mem_append.mp hs with hs | hs
          · exact Or.inl hs
          · exact Or.inr (List.mem_singleton.mp hs ▸ List.mem_cons_self _ _)
        · exact Or.inr (List.mem_cons_of_mem _ hs)
      exact hinj s1 (w s1 h1) s2 (w s2 h2) he

/-- With id-injective class songs (the real case: they come from one catalog),
every view dict is exactly the first-occurrence song list mapped to
`(song.id, mk song)`. -/
theorem viewInit_closed (mk : Song → PlateObject) (cls : List Song)
    (hinj : ∀ s1 ∈ cls, ∀ s2 ∈ cls, s1.id = s2.id → s1 = s2) :
    viewInit mk cls = (firstById cls).map (fun s => (s.id, mk s)) := by
  unfold viewInit firstById
  exact viewInit_fold_closed mk cls [] (fun s1 h1 s2 h2 he =>
    hinj s1 (h1.resolve_left (List.not_mem_nil _)) s2 (h2.resolve_left (List.not_mem_nil _)) he)

/-! ### Catalog uniqueness lemmas -/

theorem songDictFold_keys_nodup (l : List Song) :
    ∀ d : PyDict Int Song, (pyKeys d).Nodup → (pyKeys (l.foldl songDictStep d)).Nodup := by
  induction l with
  | nil => intro d hd; exact hd
  | cons s rest ih => intro d hd; exact ih _ (pyKeys_nodup_pyUpdate hd _ _)

theorem aliasFold_keys_nodup (l : List SongAlias) :
    ∀ st : PyDict Int Song × PyDict String Int, (pyKeys st.1).Nodup →
      (pyKeys (l.foldl aliasStep st).1).Nodup := by
  induction l with
  | nil => intro st hst; exact hst
  | cons a rest ih =>
    intro st hst
    refine ih _ ?_
    show (pyKeys (aliasApply st.1 a)).Nodup
    unfold aliasApply
    split
    · exact pyKeys_nodup_pyUpdate hst _ _
    · exact hst

theorem mkMaimaiSongs_keys_nodup (songs : List Song) (aliases : List SongAlias) :
    (pyKeys (mkMaimaiSongs songs aliases).song_id_dict).Nodup :=
  aliasFold_keys_nodup aliases _ (songDictFold_keys_nodup songs [] List.nodup_nil)

theorem pyDict_entry_unique {κ ν : Type} [DecidableEq κ] {d : PyDict κ ν}
    (hn : (pyKeys d).Nodup) : ∀ p ∈ d, ∀ q ∈ d, p.1 = q.1 → p = q := by
  intro p hp q hq he
  exact List.inj_on_of_nodup_map hn hp hq he

theorem catalog_value_id_inj (songs : List Song) (aliases : List SongAlias) :
    ∀ s1 ∈ (mkMaimaiSongs songs aliases).songsList,
      ∀ s2 ∈ (mkMaimaiSongs songs aliases).songsList, s1.id = s2.id → s1 = s2 := by
  intro s1 h1 s2 h2 he
  obtain ⟨p, hp, hpv⟩ := List.mem_map.mp h1
  obtain ⟨q, hq, hqv⟩ := List.mem_map.mp h2
  have hk : p.1 = q.1 := by
    rw [← mkMaimaiSongs_entry_id songs aliases p hp,
      ← mkMaimaiSongs_entry_id songs aliases q hq, hpv, hqv, he]
  have hpq := pyDict_entry_unique (mkMaimaiSongs_keys_nodup songs aliases) p hp q hq hk
  rw [← hpv, ← hqv, hpq]

theorem by_id_mem_songsList {M : MaimaiSongs} {x : Int} {s : Song}
    (h : M.by_id x = some s) : s ∈ M.songsList := by
  obtain ⟨p, hp, _, hv⟩ := pyGet?_eq_some_imp h
  exact hv ▸ List.mem_map_of_mem (fun p => p.2) hp

/-! ### Class-song list lemmas (Claim C4) -/

theorem mem_chartStageAppend_of_mem {versions : List Nat} {x : Song}
    {charts : List SongDifficulty} {acc : List Song} {s : Song} (hs : s ∈ acc) :
    s ∈ chartStageAppend versions x charts acc := by
  unfold chartStageAppend
  split
  · exact hs
  · split
    · exact List.mem_append.mpr (Or.inl hs)
    · exact hs

theorem mem_chartStageAppend_elim {versions : List Nat} {x : Song}
    {charts : List SongDifficulty} {acc : List Song} {s : Song}
    (h : s ∈ chartStageAppend versions x charts acc) : s ∈ acc ∨ s = x := by
  unfold chartStageAppend at h
  split at h
  · exact Or.inl h
  · split at h
    · rcases List.mem_append.mp h with h | h
      · exact Or.inl h
      · exact Or.inr (List.mem_singleton.mp h)
    · exact Or.inl h

theorem chartStageAppend_mem_self {versions : List Nat} {x : Song} {c : SongDifficulty}
    {rest : List SongDifficulty} {acc : List Song}
    (he : eraMatch c.version versions = true) :
    x ∈ chartStageAppend versions x (c :: rest) acc := by
  simp [chartStageAppend, he]

theorem plateSongFold_mem_of_acc (versions : List Nat) (l : List Song) :
    ∀ acc, ∀ s ∈ acc, s ∈ l.foldl (plateSongStep versions) acc := by
  induction l with
  | nil => intro acc s hs; exact hs
  | cons x rest ih =>
    intro acc s hs
    exact ih _ s (mem_chartStageAppend_of_mem (mem_chartStageAppend_of_mem hs))

theorem plateSongFold_subset (versions : List Nat) (l : List Song) :
    ∀ acc, ∀ s ∈ l.foldl (plateSongStep versions) acc, s ∈ acc ∨ s ∈ l := by
  induction l with
  | nil => intro acc s hs; exact Or.inl hs
  | cons x rest ih =>
    intro acc s hs
    rcases ih _ s hs with h | h
    · rcases mem_chartStageAppend_elim h with h | rfl
      · rcases mem_chartStageAppend_elim h with h | rfl
        · exact Or.inl h
        · exact Or.inr (List.mem_cons_self _ _)
      · exact Or.inr (List.mem_cons_self _ _)
    · exact Or.inr (List.mem_cons_of_mem _ h)

theorem songEraOK_cases {song : Song} {versions : List Nat}
    (h : songEraOK song versions = true) :
    (∃ c rest, song.difficulties.standard = c :: rest ∧ eraMatch c.version versions = true) ∨
      (∃ c rest, song.difficulties.dx = c :: rest ∧ eraMatch c.version versions = true) := by
  unfold songEraOK at h
  cases hstd : song.difficulties.standard with
  | nil =>
    cases hdx : song.difficulties.dx with
    | nil => rw [hstd, hdx] at h; simp at h
    | cons c rest =>
      rw [hstd, hdx] at h
      simp at h
      exact Or.inr ⟨c, rest, rfl, h⟩
  | cons c rest =>
    cases hdx : song.difficulties.dx with
    | nil =>
      rw [hstd, hdx] at h
      simp at h
      exact Or.inl ⟨c, rest, rfl, h⟩
    | cons c' rest' =>
      rw [hstd, hdx] at h
      simp at h
      rcases h with h | h
      · exact Or.inl ⟨c, rest, rfl, h⟩
      · exact Or.inr ⟨c', rest', rfl, h⟩

theorem plateSongFold_mem_of_era (versions : List Nat) (l : List Song) :
    ∀ acc, ∀ s ∈ l, songEraOK s versions = true →
      s ∈ l.foldl (plateSongStep versions) acc := by
  induction l with
  | nil => intro acc s hs _; exact absurd hs (List.not_mem_nil _)
  | cons x rest ih =>
    intro acc s hs hera
    rcases List.mem_cons.mp hs with rfl | hs
    · refine plateSongFold_mem_of_acc versions rest _ s ?_
      unfold plateSongStep
      rcases songEraOK_cases hera with ⟨c, r, hc, he⟩ | ⟨c, r, hc, he⟩
      · refine mem_chartStageAppend_of_mem ?_
        rw [hc]
        exact chartStageAppend_mem_self he
      · rw [hc]
        exact chartStageAppend_mem_self he
    · exact ih _ s hs hera

/-! ### Plate score dict invariant (Claim C4) -/

theorem plateDictInv_nil (allScores : List Score) (songs : MaimaiSongs)
    (versions : List Nat) : PlateDictInv allScores songs versions [] :=
  ⟨fun p hp => absurd hp (List.not_mem_nil _), List.nodup_nil,
   fun p hp => absurd hp (List.not_mem_nil _),
   fun p hp => absurd hp (List.not_mem_nil _)⟩

theorem plateDictInv_dedupStep {allScores : List Score} {songs : MaimaiSongs}
    {versions : List Nat} {d : PyDict (Int × SongType × LevelIndex) Score}
    (inv : PlateDictInv allScores songs versions d) {s : Score} (hs : s ∈ allScores)
    (hsong : ∃ song, songs.by_id s.id = some song ∧ songEraOK song versions = true) :
    PlateDictInv allScores songs versions (dedupStep d s) := by
  obtain ⟨keyed, nodup, src, era⟩ := inv
  refine ⟨?_, pyKeys_nodup_pyUpdate nodup _ _, ?_, ?_⟩
  · intro p hp
    rcases mem_pyUpdate_iff.mp hp with ⟨hp, _⟩ | rfl
    · exact keyed p hp
    · exact scoreKeyOf_dedup_value keyed s
  · intro p hp
    rcases mem_pyUpdate_iff.mp hp with ⟨hp, _⟩ | rfl
    · exact src p hp
    · show Score.compare s (pyGet? d (scoreKeyOf s)) ∈ allScores
      rcases compare_mem s (pyGet? d (scoreKeyOf s)) with hc | ⟨x, hx, hc⟩
      · rw [hc]; exact hs
      · obtain ⟨q, hq, _, hv⟩ := pyGet?_eq_some_imp hx
        rw [hc, ← hv]
        exact src q hq
  · intro p hp
    rcases mem_pyUpdate_iff.mp hp with ⟨hp, _⟩ | rfl
    · exact era p hp
    · have hid : (Score.compare s (pyGet? d (scoreKeyOf s))).id = s.id :=
        congrArg (fun k : Int × SongType × LevelIndex => k.1)
          (scoreKeyOf_dedup_value keyed s)

      show ∃ song, songs.by_id (Score.compare s (pyGet? d (scoreKeyOf s))).id = some song ∧
        songEraOK song versions = true
      rw [hid]
      exact hsong

theorem chartStageDedup_inv {allScores : List Score} {songs : MaimaiSongs}
    {versions : List Nat} {d : PyDict (Int × SongType × LevelIndex) Score}
    (inv : PlateDictInv allScores songs versions d) {s : Score} (hs : s ∈ allScores)
    {charts : List SongDifficulty}
    (hera : ∀ c rest, charts = c :: rest → eraMatch c.version versions = true →
      ∃ song, songs.by_id s.id = some song ∧ songEraOK song versions = true) :
    PlateDictInv allScores songs versions (chartStageDedup versions s charts d) := by
  unfold chartStageDedup
  split
  · exact inv
  · rename_i c rest
    split
    · rename_i he
      exact plateDictInv_dedupStep inv hs (hera c rest rfl he)
    · exact inv

theorem plateScoreStep_inv {allScores : List Score} {songs : MaimaiSongs}
    {versions : List Nat} {d d' : PyDict (Int × SongType × LevelIndex) Score}
    (inv : PlateDictInv allScores songs versions d) {s : Score} (hs : s ∈ allScores)
    (hok : plateScoreStep songs versions d s = Except.ok d') :
    PlateDictInv allScores songs versions d' := by
  unfold plateScoreStep at hok
  split at hok
  · exact Except.noConfusion hok
  · rename_i song hb
    rw [Except.ok.injEq] at hok
    subst hok
    refine chartStageDedup_inv (chartStageDedup_inv inv hs ?_) hs ?_
    · intro c rest hc he
      refine ⟨song, hb, ?_⟩
      unfold songEraOK
      rw [hc]
      simp [he]
    · intro c rest hc he
      refine ⟨song, hb, ?_⟩
      unfold songEraOK
      rw [hc]
      simp [he]

theorem plateScoreFold_inv (allScores : List Score) (songs : MaimaiSongs)
    (versions : List Nat) (l : List Score) :
    ∀ d u, PlateDictInv allScores songs versions d → (∀ s ∈ l, s ∈ allScores) →
      l.foldlM (plateScoreStep songs versions) d = Except.ok u →
      PlateDictInv allScores songs versions u := by
  induction l with
  | nil =>
    intro d u inv _ hok
    rw [List.foldlM_nil] at hok
    cases hok
    exact inv
  | cons s rest ih =>
    intro d u inv hall hok
    rw [List.foldlM_cons] at hok
    cases hstep : plateScoreStep songs versions d s with
    | error e =>
      rw [hstep] at hok
      exact absurd hok (by simp [Bind.bind, Except.bind])
    | ok d2 =>
      rw [hstep] at hok
      simp only [Bind.bind, Except.bind] at hok
      exact ih d2 u (plateScoreStep_inv inv (hall s (List.mem_cons_self _ _)) hstep)
        (fun t ht => hall t (List.mem_cons_of_mem _ ht)) hok

/-! ### Insert/extract counting lemmas (Claim C4) -/

theorem insertScore_skip {nr : Bool} {d : PyDict Int PlateObject} {t : Score}
    (h : (nr && decide (t.level_index = LevelIndex.ReMASTER)) = true) :
    insertScore nr d t = d := by
  unfold insertScore
  rw [if_pos h]

theorem extractScore_skip {nr : Bool} {d : PyDict Int PlateObject} {t : Score}
    (h : (nr && decide (t.level_index = LevelIndex.ReMASTER)) = true) :
    extractScore nr d t = d := by
  unfold extractScore
  rw [if_pos h]

theorem foldl_skip_filter (op : PyDict Int PlateObject → Score → PyDict Int PlateObject)
    (nr : Bool)
    (hskip : ∀ d t, (nr && decide (t.level_index = LevelIndex.ReMASTER)) = true → op d t = d)
    (l : List Score) :
    ∀ d, l.foldl op d =
      (l.filter (fun t => !(nr && decide (t.level_index = LevelIndex.ReMASTER)))).foldl op d := by
  induction l with
  | nil => intro d; rfl
  | cons t rest ih =>
    intro d
    by_cases h : (nr && decide (t.level_index = LevelIndex.ReMASTER)) = true
    · rw [List.foldl_cons, hskip d t h, List.filter_cons, if_neg (by simp [h])]
      exact ih d
    · rw [List.foldl_cons, List.filter_cons,
        if_pos (by simp [Bool.eq_false_iff.mpr h]), List.foldl_cons]
      exact ih _

theorem pyKeys_insertScore (nr : Bool) (d : PyDict Int PlateObject) (t : Score) :
    pyKeys (insertScore nr d t) = pyKeys d := by
  unfold insertScore
  split
  · rfl
  · unfold pyKeys
    rw [List.map_map]
    refine List.map_congr_left ?_
    intro p _
    by_cases hk : p.1 = t.id
    · simp [Function.comp, hk]
    · simp [Function.comp, hk]

theorem pyKeys_extractScore (nr : Bool) (d : PyDict Int PlateObject) (t : Score) :
    pyKeys (extractScore nr d t) = pyKeys d := by
  unfold extractScore
  split
  · rfl
  · unfold pyKeys
    rw [List.map_map]
    refine List.map_congr_left ?_
    intro p _
    by_cases hk : p.1 = t.id
    · simp [Function.comp, hk]
    · simp [Function.comp, hk]

theorem sum_map_len_update_inc (g : PlateObject → PlateObject) (k : Int)
    (d : PyDict Int PlateObject) :
    (pyKeys d).Nodup → k ∈ pyKeys d →
      (∀ p ∈ d, p.1 = k → (g p.2).levels.length = p.2.levels.length + 1) →
      sumLevels (d.map (fun p => if p.1 = k then (p.1, g p.2) else p)) = sumLevels d + 1 := by
  induction d with
  | nil => intro _ hmem _; exact absurd hmem (List.not_mem_nil _)
  | cons q rest ih =>
    intro hnd hmem hg
    have hcons : pyKeys (q :: rest) = q.1 :: pyKeys rest := rfl
    rw [hcons] at hnd hmem
    by_cases hk : q.1 = k
    · have hnin : ∀ p ∈ rest, p.1 ≠ k := by
        intro p hp hpk
        exact (List.nodup_cons.mp hnd).1
          (by rw [hk, ← hpk]; exact List.mem_map_of_mem (fun p => p.1) hp)
      have hrest : rest.map (fun p => if p.1 = k then (p.1, g p.2) else p) = rest := by
        refine (List.map_congr_left ?_).trans (List.map_id' rest)
        intro p hp
        rw [if_neg (hnin p hp)]
      have hg1 := hg q (List.mem_cons_self _ _) hk
      unfold sumLevels
      simp only [List.map_cons, List.sum_cons, hrest, if_pos hk]
      omega
    · have hmem' : k ∈ pyKeys rest := by
        rcases List.mem_cons.mp hmem with h | h
        · exact absurd h.symm hk
        · exact h
      have hstep := ih (List.nodup_cons.mp hnd).2 hmem'
        (fun p hp hpk => hg p (List.mem_cons_of_mem _ hp) hpk)
      unfold sumLevels at hstep ⊢
      simp only [List.map_cons, List.sum_cons, if_neg hk]
      omega

theorem sum_map_len_update_dec (g : PlateObject → PlateObject) (k : Int)
    (d : PyDict Int PlateObject) :
    (pyKeys d).Nodup → k ∈ pyKeys d →
      (∀ p ∈ d, p.1 = k → (g p.2).levels.length + 1 = p.2.levels.length) →
      sumLevels (d.map (fun p => if p.1 = k then (p.1, g p.2) else p)) + 1 = sumLevels d := by
  induction d with
  | nil => intro _ hmem _; exact absurd hmem (List.not_mem_nil _)
  | cons q rest ih =>
    intro hnd hmem hg
    have hcons : pyKeys (q :: rest) = q.1 :: pyKeys rest := rfl
    rw [hcons] at hnd hmem
    by_cases hk : q.1 = k
    · have hnin : ∀ p ∈ rest, p.1 ≠ k := by
        intro p hp hpk
        exact (List.nodup_cons.mp hnd).1
          (by rw [hk, ← hpk]; exact List.mem_map_of_mem (fun p => p.1) hp)
      have hrest : rest.map (fun p => if p.1 = k then (p.1, g p.2) else p) = rest := by
        refine (List.map_congr_left ?_).trans (List.map_id' rest)
        intro p hp
        rw [if_neg (hnin p hp)]
      have hg1 := hg q (List.mem_cons_self _ _) hk
      unfold sumLevels
      simp only [List.map_cons, List.sum_cons, hrest, if_pos hk]
      omega
    · have hmem' : k ∈ pyKeys rest := by
        rcases List.mem_cons.mp hmem with h | h
        · exact absurd h.symm hk
        · exact h
      have hstep := ih (List.nodup_cons.mp hnd).2 hmem'
        (fun p hp hpk => hg p (List.mem_cons_of_mem _ hp) hpk)
      unfold sumLevels at hstep ⊢
      simp only [List.map_cons, List.sum_cons, if_neg hk]
      omega

theorem sumLevels_insertScore {nr : Bool} {d : PyDict Int PlateObject} {t : Score}
    (hnd : (pyKeys d).Nodup) (hmem : t.id ∈ pyKeys d)
    (hns : (nr && decide (t.level_index = LevelIndex.ReMASTER)) = false) :
    sumLevels (insertScore nr d t) = sumLevels d + 1 := by
  unfold insertScore
  rw [if_neg (by simp [hns])]
  exact sum_map_len_update_inc
    (fun po => { po with score := po.score ++ [t], levels := po.levels ++ [t.level_index] })
    t.id d hnd hmem (fun p _ _ => by simp)

theorem sumLevels_extractScore {nr : Bool} {d : PyDict Int PlateObject} {t : Score}
    (hnd : (pyKeys d).Nodup) (hmem : t.id ∈ pyKeys d)
    (hns : (nr && decide (t.level_index = LevelIndex.ReMASTER)) = false)
    (hlvl : ∀ p ∈ d, p.1 = t.id → t.level_index ∈ p.2.levels) :
    sumLevels (extractScore nr d t) + 1 = sumLevels d := by
  unfold extractScore
  rw [if_neg (by simp [hns])]
  refine sum_map_len_update_dec
    (fun po =>
      { po with
        score := po.score.erase t,
        levels :=
          if t.level_index ∈ po.levels then po.levels.erase t.level_index else po.levels })
    t.id d hnd hmem ?_
  intro p hp hpk
  have hm := hlvl p hp hpk
  show (if t.level_index ∈ p.2.levels then p.2.levels.erase t.level_index
    else p.2.levels).length + 1 = p.2.levels.length
  rw [if_pos hm, List.length_erase_of_mem hm]
  have := List.length_pos_of_mem hm
  omega

theorem insert_fold_sum (nr : Bool) (Q : List Score) :
    ∀ d, (pyKeys d).Nodup →
      (∀ t ∈ Q, (nr && decide (t.level_index = LevelIndex.ReMASTER)) = false) →
      (∀ t ∈ Q, t.id ∈ pyKeys d) →
      sumLevels (Q.foldl (insertScore nr) d) = sumLevels d + Q.length := by
  induction Q with
  | nil => intro d _ _ _; rfl
  | cons t rest ih =>
    intro d hnd hns hmem
    rw [List.foldl_cons]
    have hkeys := pyKeys_insertScore nr d t
    have hstep := sumLevels_insertScore hnd (hmem t (List.mem_cons_self _ _))
      (hns t (List.mem_cons_self _ _))
    have hrec := ih (insertScore nr d t) (by rw [hkeys]; exact hnd)
      (fun u hu => hns u (List.mem_cons_of_mem _ hu))
      (fun u hu => by rw [hkeys]; exact hmem u (List.mem_cons_of_mem _ hu))
    rw [hrec, hstep]
    simp [List.length_cons]
    omega

theorem extract_fold_sum (nr : Bool) (Q : List Score) :
    ∀ d, (pyKeys d).Nodup →
      (∀ t ∈ Q, (nr && decide (t.level_index = LevelIndex.ReMASTER)) = false) →
      (∀ t ∈ Q, t.id ∈ pyKeys d) →
      (∀ p ∈ d, ∀ l,
        Q.countP (fun u => decide (u.id = p.1 ∧ u.level_index = l)) ≤ p.2.levels.count l) →
      sumLevels (Q.foldl (extractScore nr) d) + Q.length = sumLevels d := by
  induction Q with
  | nil => intro d _ _ _ _; rfl
  | cons t rest ih =>
    intro d hnd hns hmem hdem
    rw [List.foldl_cons]
    have hkeys := pyKeys_extractScore nr d t
    have hskipf : (nr && decide (t.level_index = LevelIndex.ReMASTER)) = false :=
      hns t (List.mem_cons_self _ _)
    have hlvl : ∀ p ∈ d, p.1 = t.id → t.level_index ∈ p.2.levels := by
      intro p hp hpk
      have hd := hdem p hp t.level_index
      rw [List.countP_cons] at hd
      rw [if_pos (by simp [hpk])] at hd
      exact List.count_pos_iff.mp (by omega)
    have hstep := sumLevels_extractScore hnd (hmem t (List.mem_cons_self _ _)) hskipf hlvl
    have hdem' : ∀ p ∈ extractScore nr d t, ∀ l,
        rest.countP (fun u => decide (u.id = p.1 ∧ u.level_index = l)) ≤
          p.2.levels.count l := by
      intro p' hp' l
      have hne : extractScore nr d t = d.map (fun p =>
          if p.1 = t.id then
            (p.1,
             { p.2 with
               score := p.2.score.erase t,
               levels :=
                 if t.level_index ∈ p.2.levels then p.2.levels.erase t.level_index
                 else p.2.levels })
          else p) := by
        unfold extractScore
        rw [if_neg (by simp [hskipf])]
      rw [hne] at hp'
      obtain ⟨p, hp, hfp⟩ := List.mem_map.mp hp'
      by_cases hpk : p.1 = t.id
      · rw [if_pos hpk] at hfp
        have hmemlvl := hlvl p hp hpk
        have hd := hdem p hp l
        rw [List.countP_cons] at hd
        by_cases hl : t.level_index = l
        · subst hl
          rw [if_pos (by simp [hpk])] at hd
          have hcnt : p'.2.levels.count t.level_index =
              p.2.levels.count t.level_index - 1 := by
            rw [← hfp]
            show (if t.level_index ∈ p.2.levels then p.2.levels.erase t.level_index
              else p.2.levels).count t.level_index = _
            rw [if_pos hmemlvl, List.count_erase_self]
          have hkeq : p'.1 = p.1 := by rw [← hfp]
          rw [hkeq, hcnt]
          have := List.count_pos_iff.mpr hmemlvl
          omega
        · rw [if_neg (by simp [hl])] at hd
          have hcnt : p'.2.levels.count l = p.2.levels.count l := by
            rw [← hfp]
            show (if t.level_index ∈ p.2.levels then p.2.levels.erase t.level_index
              else p.2.levels).count l = _
            rw [if_pos hmemlvl, List.count_erase_of_ne (fun hc => hl hc.symm)]
          have hkeq : p'.1 = p.1 := by rw [← hfp]
          rw [hkeq, hcnt]
          omega
      · rw [if_neg hpk] at hfp
        subst hfp
        have hd := hdem p hp l
        rw [List.countP_cons] at hd
        rw [if_neg (by simp; intro hc; exact absurd hc.symm hpk)] at hd
        omega
    have hrec := ih (extractScore nr d t) (by rw [hkeys]; exact hnd)
      (fun u hu => hns u (List.mem_cons_of_mem _ hu))
      (fun u hu => by rw [hkeys]; exact hmem u (List.mem_cons_of_mem _ hu))
      hdem'
    rw [List.length_cons]
    omega

/-! ### Supply-versus-demand counting (Claim C4) -/

theorem sum_filter_nonempty (l : List PlateObject) :
    ((l.filter (fun po => decide (po.levels ≠ []))).map (fun po => po.levels.length)).sum =
      (l.map (fun po => po.levels.length)).sum := by
  induction l with
  | nil => rfl
  | cons po rest ih =>
    by_cases h : po.levels = []
    · rw [List.filter_cons, if_neg (by simp [h]), ih, List.map_cons, List.sum_cons, h]
      simp
    · rw [List.filter_cons, if_pos (by simp [h]), List.map_cons, List.map_cons,
        List.sum_cons, List.sum_cons, ih]

theorem sumLevels_eq_values (d : PyDict Int PlateObject) :
    ((pyValues d).map (fun po => po.levels.length)).sum = sumLevels d := by
  unfold sumLevels pyValues
  rw [List.map_map]
  rfl

theorem map_nodup_const_length_le_one {α β : Type} {l : List α} {f : α → β} {c : β}
    (hn : (l.map f).Nodup) (hc : ∀ a ∈ l, f a = c) : l.length ≤ 1 := by
  cases l with
  | nil => simp
  | cons a rest =>
    cases rest with
    | nil => simp
    | cons b rest2 =>
      exfalso
      have heq : f a = f b :=
        (hc a (List.mem_cons_self _ _)).trans
          (hc b (List.mem_cons_of_mem _ (List.mem_cons_self _ _))).symm
      rw [List.map_cons, List.nodup_cons] at hn
      exact hn.1 (by
        rw [heq]
        exact List.mem_map_of_mem f (List.mem_cons_self _ _))

theorem by_id_id_eq {songList : List Song} {aliasList : List SongAlias} {x : Int} {s : Song}
    (h : (mkMaimaiSongs songList aliasList).by_id x = some s) : s.id = x := by
  unfold MaimaiSongs.by_id at h
  obtain ⟨p, hp, hk, hv⟩ := pyGet?_eq_some_imp h
  rw [← hv, ← hk]
  exact mkMaimaiSongs_entry_id songList aliasList p hp

theorem get_levels_count (song : Song) (nr : Bool) (l : LevelIndex)
    (h : (nr && decide (l = LevelIndex.ReMASTER)) = false) :
    (Song.get_levels song nr).count l = (songLevelsRaw song).count l := by
  unfold Song.get_levels
  split
  · rename_i hc
    simp only [Bool.and_eq_true] at hc
    have hlne : l ≠ LevelIndex.ReMASTER := by
      rw [hc.1] at h
      simpa using h
    exact List.count_erase_of_ne hlne _
  · rfl

theorem demand_le_supply (catalog : MaimaiSongs) (Q : List Score) (song : Song) (nr : Bool)
    (l : LevelIndex)
    (hQn : (Q.map scoreKeyOf).Nodup)
    (hwfQ : ∀ t ∈ Q, scoreWellFormed catalog t = true)
    (huniq : ∀ s1 ∈ catalog.songsList, ∀ s2 ∈ catalog.songsList, s1.id = s2.id → s1 = s2)
    (hbyid : ∀ (x : Int) (s' : Song), catalog.by_id x = some s' → s'.id = x)
    (hsong : song ∈ catalog.songsList)
    (hns : ∀ t ∈ Q, (nr && decide (t.level_index = LevelIndex.ReMASTER)) = false) :
    Q.countP (fun u => decide (u.id = song.id ∧ u.level_index = l)) ≤
      (Song.get_levels song nr).count l := by
  by_cases hcase : (nr && decide (l = LevelIndex.ReMASTER)) = true
  · have hzero : Q.countP (fun u => decide (u.id = song.id ∧ u.level_index = l)) = 0 := by
      rw [List.countP_eq_zero]
      intro u hu
      have hsk := hns u hu
      simp only [Bool.and_eq_true] at hcase
      have hnr : nr = true := hcase.1
      have hlR : l = LevelIndex.ReMASTER := by
        have := hcase.2
        simpa using this
      rw [hnr] at hsk
      simp only [Bool.true_and] at hsk
      have huR : u.level_index ≠ LevelIndex.ReMASTER := by simpa using hsk
      simp only [decide_eq_true_eq, not_and]
      intro _
      rw [hlR]
      exact huR
    omega
  · rw [get_levels_count song nr l (Bool.eq_false_iff.mpr hcase)]
    rw [List.countP_eq_length_filter]
    have hchart : ∀ ty : SongType,
        ((Q.filter (fun u => decide (u.id = song.id ∧ u.level_index = l))).filter
          (fun u => decide (u.type = ty))).length ≤
          ((chartOf song ty).map SongDifficulty.level_index).count l := by
      intro ty
      set G := (Q.filter (fun u => decide (u.id = song.id ∧ u.level_index = l))).filter
        (fun u => decide (u.type = ty)) with hG
      have hGsub : G.Sublist Q := (List.filter_sublist _).trans (List.filter_sublist _)
      have hGmem : ∀ u ∈ G, u ∈ Q := fun u hu => hGsub.mem hu
      have hconst : ∀ u ∈ G, scoreKeyOf u = (song.id, ty, l) := by
        intro u hu
        have h1 := (List.mem_filter.mp hu).2
        have h2 := (List.mem_filter.mp (List.mem_filter.mp hu).1).2
        simp only [decide_eq_true_eq] at h1 h2
        unfold scoreKeyOf
        rw [h1, h2.1, h2.2]
      have hlen : G.length ≤ 1 :=
        map_nodup_const_length_le_one (hQn.sublist (hGsub.map scoreKeyOf)) hconst
      cases hGnil : G with
      | nil => simp
      | cons u0 rest0 =>
        have hu0 : u0 ∈ G := by rw [hGnil]; exact List.mem_cons_self _ _
        have hwf := hwfQ u0 (hGmem u0 hu0)
        unfold scoreWellFormed at hwf
        cases hb : catalog.by_id u0.id with
        | none => rw [hb] at hwf; exact absurd hwf (by simp)
        | some song' =>
          rw [hb] at hwf
          have hkey := hconst u0 hu0
          unfold scoreKeyOf at hkey
          have hid : u0.id = song.id := congrArg (fun k : Int × SongType × LevelIndex => k.1) hkey
          have hty : u0.type = ty :=
            congrArg (fun k : Int × SongType × LevelIndex => k.2.1) hkey
          have hlv : u0.level_index = l :=
            congrArg (fun k : Int × SongType × LevelIndex => k.2.2) hkey
          have hsong' : song' = song := by
            refine huniq song' (by_id_mem_songsList hb) song hsong ?_
            rw [hbyid u0.id song' hb, hid]
          obtain ⟨c, hc, hcl⟩ := List.any_eq_true.mp hwf
          simp only [decide_eq_true_eq] at hcl
          have hmeml : l ∈ (chartOf song ty).map SongDifficulty.level_index := by
            rw [← hlv, ← hcl]
            refine List.mem_map_of_mem SongDifficulty.level_index ?_
            rw [← hty, ← hsong']
            exact hc
          have hcount := List.count_pos_iff.mpr hmeml
          have hlen2 : rest0.length + 1 ≤ 1 := by
            rw [hGnil] at hlen
            simpa using hlen
          simp only [List.length_cons]
          omega
    have hneg : List.countP (fun a => decide ¬(decide (a.type = SongType.standard) = true))
          (Q.filter (fun u => decide (u.id = song.id ∧ u.level_index = l))) =
        List.countP (fun u => decide (u.type = SongType.dx))
          (Q.filter (fun u => decide (u.id = song.id ∧ u.level_index = l))) :=
      List.countP_congr (fun u _ => by cases htype : u.type <;> simp [htype])
    have hsplit : (Q.filter (fun u => decide (u.id = song.id ∧ u.level_index = l))).length =
        ((Q.filter (fun u => decide (u.id = song.id ∧ u.level_index = l))).filter
          (fun u => decide (u.type = SongType.standard))).length +
        ((Q.filter (fun u => decide (u.id = song.id ∧ u.level_index = l))).filter
          (fun u => decide (u.type = SongType.dx))).length := by
      rw [List.length_eq_countP_add_countP (fun u => decide (u.type = SongType.standard)),
        hneg, List.countP_eq_length_filter, List.countP_eq_length_filter]
    have hsupply : (songLevelsRaw song).count l =
        ((song.difficulties.standard).map SongDifficulty.level_index).count l +
        ((song.difficulties.dx).map SongDifficulty.level_index).count l := by
      unfold songLevelsRaw
      rw [List.map_append, List.count_append]
    have h1 := hchart SongType.standard
    have h2 := hchart SongType.dx
    simp only [chartOf] at h1 h2
    omega

/-! ### Claim C4: the plate level-count invariant -/

/-- Claim C4 (amended): for every valid plate specification and every score list
whose members each refer to an existing chart level of their song in the
catalog, a `MaimaiPlates` constructed from a clean class-song list satisfies
`all_num = cleared_num + remained_num`. -/
theorem C4_plate_invariant (songList : List Song) (aliasList : List SongAlias)
    (scores : List Score) (version_str kind : String)
    (inst : PlateInstance) (cls : List Song)
    (hok : mkMaimaiPlates [] scores version_str kind (mkMaimaiSongs songList aliasList) =
      Except.ok (inst, cls))
    (hwf : ∀ s ∈ scores, scoreWellFormed (mkMaimaiSongs songList aliasList) s = true) :
    inst.all_num cls = inst.cleared_num cls + inst.remained_num cls := by
  simp only [mkMaimaiPlates] at hok
  split at hok
  · exact Except.noConfusion hok
  · rename_i versions hrv
    split at hok
    · exact Except.noConfusion hok
    · rename_i hvalid
      split at hok
      · exact Except.noConfusion hok
      · rename_i u hufold
        rw [Except.ok.injEq, Prod.mk.injEq] at hok
        obtain ⟨hinst, hcls⟩ := hok
        have hscores : inst.scores = pyValues u := by rw [← hinst]
        have hinv : PlateDictInv scores (mkMaimaiSongs songList aliasList) versions u :=
          plateScoreFold_inv scores (mkMaimaiSongs songList aliasList) versions scores [] u
            (plateDictInv_nil _ _ _) (fun s hs => hs) hufold
        obtain ⟨hkeyed, hknodup, hsrc, hera⟩ := hinv
        have hscoresNodup : (inst.scores.map scoreKeyOf).Nodup := by
          rw [hscores]
          have hmk : (pyValues u).map scoreKeyOf = pyKeys u := by
            unfold pyValues pyKeys
            rw [List.map_map]
            exact List.map_congr_left (fun p hp => hkeyed p hp)
          rw [hmk]
          exact hknodup
        have hinstsrc : ∀ t ∈ inst.scores, t ∈ scores := by
          intro t ht
          rw [hscores] at ht
          obtain ⟨p, hp, hv⟩ := List.mem_map.mp ht
          exact hv ▸ hsrc p hp
        have hinstera : ∀ t ∈ inst.scores,
            ∃ song, (mkMaimaiSongs songList aliasList).by_id t.id = some song ∧
              songEraOK song versions = true := by
          intro t ht
          rw [hscores] at ht
          obtain ⟨p, hp, hv⟩ := List.mem_map.mp ht
          exact hv ▸ hera p hp
        have hclsval : cls =
            (mkMaimaiSongs songList aliasList).songsList.foldl (plateSongStep versions) [] :=
          hcls.symm
        have hclssub : ∀ s ∈ cls, s ∈ (mkMaimaiSongs songList aliasList).songsList := by
          intro s hs
          rw [hclsval] at hs
          rcases plateSongFold_subset versions _ [] s hs with h | h
          · exact absurd h (List.not_mem_nil _)
          · exact h
        have hclsinj : ∀ s1 ∈ cls, ∀ s2 ∈ cls, s1.id = s2.id → s1 = s2 := by
          intro s1 h1 s2 h2 he
          exact catalog_value_id_inj songList aliasList s1 (hclssub s1 h1) s2 (hclssub s2 h2) he
        have hmemcls : ∀ t ∈ inst.scores, ∃ song ∈ cls, song.id = t.id := by
          intro t ht
          obtain ⟨song, hb, heraOK⟩ := hinstera t ht
          refine ⟨song, ?_, by_id_id_eq hb⟩
          rw [hclsval]
          exact plateSongFold_mem_of_era versions _ [] song (by_id_mem_songsList hb) heraOK
        -- the filtered score lists
        have hQsub :
            ((inst.scores.filter (plateQualifies inst.kind)).filter
              (fun t => !(inst.no_remaster && decide
                (t.level_index = LevelIndex.ReMASTER)))).Sublist inst.scores :=
          (List.filter_sublist _).trans (List.filter_sublist _)
        have hQn : (((inst.scores.filter (plateQualifies inst.kind)).filter
            (fun t => !(inst.no_remaster && decide
              (t.level_index = LevelIndex.ReMASTER)))).map scoreKeyOf).Nodup :=
          hscoresNodup.sublist (hQsub.map scoreKeyOf)
        have hQwf : ∀ t ∈ (inst.scores.filter (plateQualifies inst.kind)).filter
            (fun t => !(inst.no_remaster && decide (t.level_index = LevelIndex.ReMASTER))),
            scoreWellFormed (mkMaimaiSongs songList aliasList) t = true :=
          fun t ht => hwf t (hinstsrc t (hQsub.mem ht))
        have hQns : ∀ t ∈ (inst.scores.filter (plateQualifies inst.kind)).filter
            (fun t => !(inst.no_remaster && decide (t.level_index = LevelIndex.ReMASTER))),
            (inst.no_remaster && decide (t.level_index = LevelIndex.ReMASTER)) = false := by
          intro t ht
          have hmem := (List.mem_filter.mp ht).2
          cases hb : (inst.no_remaster && decide (t.level_index = LevelIndex.ReMASTER)) with
          | false => rfl
          | true => rw [hb] at hmem; exact absurd hmem (by decide)
        have hQkeys : ∀ mk : Song → PlateObject,
            ∀ t ∈ (inst.scores.filter (plateQualifies inst.kind)).filter
              (fun t => !(inst.no_remaster && decide (t.level_index = LevelIndex.ReMASTER))),
            t.id ∈ pyKeys ((firstById cls).map (fun s => (s.id, mk s))) := by
          intro mk t ht
          have hkeysmap : pyKeys ((firstById cls).map (fun s => (s.id, mk s))) =
              (firstById cls).map Song.id := by
            unfold pyKeys
            rw [List.map_map]
            rfl
          rw [hkeysmap]
          obtain ⟨song, hsongcls, hsid⟩ := hmemcls t (hQsub.mem ht)
          rw [← hsid]
          exact firstById_fold_mem_ids cls [] song (Or.inr hsongcls)
        have hFnodup : ((firstById cls).map Song.id).Nodup :=
          firstById_fold_ids_nodup cls [] (by simp)
        have hKnodup : ∀ mk : Song → PlateObject,
            (pyKeys ((firstById cls).map (fun s => (s.id, mk s)))).Nodup := by
          intro mk
          have hkeysmap : pyKeys ((firstById cls).map (fun s => (s.id, mk s))) =
              (firstById cls).map Song.id := by
            unfold pyKeys
            rw [List.map_map]
            rfl
          rw [hkeysmap]
          exact hFnodup
        have hFsub : ∀ s ∈ firstById cls, s ∈ cls := by
          intro s hs
          rcases firstById_fold_subset cls [] s hs with h | h
          · exact absurd h (List.not_mem_nil _)
          · exact h
        -- demand for the extraction pass on the remained view
        have hdemand : ∀ p ∈ (firstById cls).map (fun s =>
            (s.id, PlateObject.mk s (s.get_levels inst.no_remaster)
              (pyGetD (groupScoresById inst.scores) s.id []))),
            ∀ l, ((inst.scores.filter (plateQualifies inst.kind)).filter
              (fun t => !(inst.no_remaster && decide
                (t.level_index = LevelIndex.ReMASTER)))).countP
                (fun u => decide (u.id = p.1 ∧ u.level_index = l)) ≤
              p.2.levels.count l := by
          intro p hp l
          obtain ⟨s, hsF, hpv⟩ := List.mem_map.mp hp
          rw [← hpv]
          exact demand_le_supply (mkMaimaiSongs songList aliasList) _ s inst.no_remaster l
            hQn hQwf (catalog_value_id_inj songList aliasList)
            (fun x s' h => by_id_id_eq h) (hclssub s (hFsub s hsF)) hQns
        -- counter characterisations
        have hallnum : inst.all_num cls =
            (((firstById cls).map (fun s =>
              (s.id, PlateObject.mk s (s.get_levels inst.no_remaster) []))).map
                (fun p => p.2.levels.length)).sum := by
          unfold PlateInstance.all_num platesAll
          rw [sumLevels_eq_values]
          rw [viewInit_closed _ cls hclsinj]
          rfl
        have hclrnum : inst.cleared_num cls =
            sumLevels (((inst.scores.filter (plateQualifies inst.kind)).filter
              (fun t => !(inst.no_remaster && decide
               (t.level_index = LevelIndex.ReMASTER)))).foldl
                (insertScore inst.no_remaster)
                ((firstById cls).map (fun s =>
                  (s.id, ({ song := s, levels := [], score := [] } : PlateObject))))) := by
          unfold PlateInstance.cleared_num platesCleared
          rw [sum_filter_nonempty, sumLevels_eq_values]
          rw [viewInit_closed _ cls hclsinj]
          rw [foldl_skip_filter (insertScore inst.no_remaster) inst.no_remaster
            (fun d t h => insertScore_skip h)]
        have hremnum : inst.remained_num cls =
            sumLevels (((inst.scores.filter (plateQualifies inst.kind)).filter
              (fun t => !(inst.no_remaster && decide
               (t.level_index = LevelIndex.ReMASTER)))).foldl
                (extractScore inst.no_remaster)
                ((firstById cls).map (fun s =>
                  (s.id, PlateObject.mk s (s.get_levels inst.no_remaster)
                    (pyGetD (groupScoresById inst.scores) s.id []))))) := by
          unfold PlateInstance.remained_num platesRemained remainedInit
          rw [sum_filter_nonempty, sumLevels_eq_values]
          rw [viewInit_closed _ cls hclsinj]
          rw [foldl_skip_filter (extractScore inst.no_remaster) inst.no_remaster
            (fun d t h => extractScore_skip h)]
        -- the three sums
        have hcsum := insert_fold_sum inst.no_remaster
          ((inst.scores.filter (plateQualifies inst.kind)).filter
            (fun t => !(inst.no_remaster && decide (t.level_index = LevelIndex.ReMASTER))))
          ((firstById cls).map (fun s =>
            (s.id, ({ song := s, levels := [], score := [] } : PlateObject))))
          (hKnodup _) hQns (hQkeys _)
        have hrsum := extract_fold_sum inst.no_remaster
          ((inst.scores.filter (plateQualifies inst.kind)).filter
            (fun t => !(inst.no_remaster && decide (t.level_index = LevelIndex.ReMASTER))))
          ((firstById cls).map (fun s =>
            (s.id, PlateObject.mk s (s.get_levels inst.no_remaster)
              (pyGetD (groupScoresById inst.scores) s.id []))))
          (hKnodup _) hQns (hQkeys _) hdemand
        have hc0 : sumLevels ((firstById cls).map (fun s =>
            (s.id, ({ song := s, levels := [], score := [] } : PlateObject)))) = 0 := by
          unfold sumLevels
          rw [List.map_map]
          have hfe : ((fun p : Int × PlateObject => p.2.levels.length) ∘ fun s : Song =>
              (s.id, ({ song := s, levels := [], score := [] } : PlateObject))) =
              (fun s : Song => 0) := rfl
          rw [hfe, List.map_const']
          simp
        have hr0 : sumLevels ((firstById cls).map (fun s =>
            (s.id, PlateObject.mk s (s.get_levels inst.no_remaster)
              (pyGetD (groupScoresById inst.scores) s.id [])))) =
            (((firstById cls).map (fun s =>
              (s.id, PlateObject.mk s (s.get_levels inst.no_remaster) []))).map
                (fun p => p.2.levels.length)).sum := by
          unfold sumLevels
          rw [List.map_map, List.map_map]
          rfl
        rw [hallnum, hclrnum, hremnum]
        rw [hcsum, hc0] at *
        rw [hr0] at hrsum
        omega

/-- Counterexample to the literal claim C4: the plate "舞将" with the single
score `exScoreRem` — an SSS score recorded on a ReMASTER chart slot its song
does not have — constructs successfully, yet `all_num = 4` while
`cleared_num + remained_num = 1 + 4 = 5`: the insertion pass appends the
phantom ReMASTER level to the cleared view while the extraction pass removes
nothing from the remained view. -/
theorem C4_plate_invariant_counterexample :
    (mkMaimaiPlates [] [exScoreRem] "舞" "将" exCatalogP).map
        (fun r => (r.1.all_num r.2, r.1.cleared_num r.2 + r.1.remained_num r.2)) =
      Except.ok (4, 5) ∧ (4 : Nat) ≠ 5 := by
  exact ⟨by decide, by decide⟩

/-- Witness for C4: the plate "舞将" evaluated on the single well-formed score
`exScoreMaster` satisfies the level-count invariant (4 = 1 + 3). -/
theorem C4_plate_invariant_witness :
    (∀ s ∈ [exScoreMaster], scoreWellFormed (mkMaimaiSongs [exPlateSong] []) s = true) ∧
    PlateInstance.all_num
        { scores := [exScoreMaster], version := "舞", kind := "将" } [exPlateSong] =
      PlateInstance.cleared_num
          { scores := [exScoreMaster], version := "舞", kind := "将" } [exPlateSong] +
        PlateInstance.remained_num
          { scores := [exScoreMaster], version := "舞", kind := "将" } [exPlateSong] :=
  ⟨by decide,
   C4_plate_invariant [exPlateSong] [] [exScoreMaster] "舞" "将"
     { scores := [exScoreMaster], version := "舞", kind := "将" } [exPlateSong]
     (by decide) (by decide)⟩

end MaimaiPy
